import Mathlib

/-!
Shallow embedding of `src/sniff_and_trace/trace.py` (class `Trace`).

Python strings are modelled as `List Char`, Python numbers (ints and
floats) as `ℚ`, JSON field values as `JVal`, the geolocation provider as
a function from address to `ProviderResponse`, and the persisted cache
file as a list of lines (each line a `List Char`, including its trailing
newline, exactly as produced by `readlines`).  Fallible operations return
`Option`/`Except`.  Outbound provider calls and logged warnings are made
observable by having each operation also return the list of addresses it
queried (`calls`) and warned about (`warns`).
-/

set_option maxRecDepth 20000

namespace TraceRoute

/-- Characters of a Python string. -/
abbrev Str := List Char

/-- Decimal digit test (characters 0-9), by code point. -/
def isDigitCh (c : Char) : Bool := 48 ≤ c.toNat && c.toNat ≤ 57

/-- Whitespace as stripped by Python `float()`. -/
def isWS (c : Char) : Bool := c == ' ' || c == '\n' || c == '\t' || c == '\r'

/-- Numeric value of a digit character. -/
def digVal (c : Char) : ℕ := c.toNat - 48

/-- The decimal digit character for a value below ten. -/
def digitChar : ℕ → Char
  | 0 => '0' | 1 => '1' | 2 => '2' | 3 => '3' | 4 => '4'
  | 5 => '5' | 6 => '6' | 7 => '7' | 8 => '8' | 9 => '9'
  | _ => '*'

/-- Value of a big-endian digit string (how `float()` reads the digits). -/
def charsToNat (l : List Char) : ℕ := l.foldl (fun a c => 10 * a + digVal c) 0

/-- Big-endian decimal digits of a natural number, fuel-structured so the
kernel can evaluate it. -/
def natToCharsAux : ℕ → ℕ → List Char
  | 0, _ => []
  | _, 0 => []
  | fuel + 1, n + 1 => natToCharsAux fuel ((n + 1) / 10) ++ [digitChar ((n + 1) % 10)]

/-- Decimal rendering of a natural number, as Python `str` renders it. -/
def natToChars (n : ℕ) : List Char := if n = 0 then ['0'] else natToCharsAux n n

/-- Decimal rendering of an integer, as Python `str` renders it. -/
def intToChars (i : ℤ) : List Char :=
  if i < 0 then '-' :: natToChars i.natAbs else natToChars i.toNat

/-- A JSON field value as `json.loads` produces it: a number (Python int
or float), a string, or `None`. -/
inductive JVal where
  | num (q : ℚ)
  | str (s : Str)
  | null
  deriving DecidableEq

/-- The literal sentinel `"Not found"` used by the geolocation provider. -/
def nfChars : Str := ("Not found").toList

/-- Outcome of one outbound geolocation lookup: `failure` is any
transport or parse exception (the `except` branch); `ok` is a decoded
JSON object whose `latitude`/`longitude` fields may each be absent. -/
inductive ProviderResponse where
  | failure
  | ok (latitude longitude : Option JVal)
  deriving DecidableEq

/-- The geolocation provider for one run: what the lookup of each
address would yield. -/
abbrev Provider := Str → ProviderResponse

/-- The mutable state of a `Trace` object: `self.ip_locations` (a dict,
modelled as an insertion-ordered association list) and
`self.blacklisted_ips` (a set, modelled as a duplicate-free list). -/
structure TraceState where
  ip_locations : List (Str × (JVal × JVal))
  blacklisted_ips : List Str
  deriving DecidableEq

/-- `Trace.__init__`: empty cache and blacklist. -/
def initState : TraceState := ⟨[], []⟩

/-- Python dict read `d[k]` / `k in d`. -/
def lookupLoc : List (Str × (JVal × JVal)) → Str → Option (JVal × JVal)
  | [], _ => none
  | (k, v) :: r, a => if k = a then some v else lookupLoc r a

/-- Python dict write `d[k] = v`: update in place, or append a new key. -/
def insertLoc : List (Str × (JVal × JVal)) → Str → (JVal × JVal) → List (Str × (JVal × JVal))
  | [], k, v => [(k, v)]
  | (k', v') :: r, k, v => if k' = k then (k, v) :: r else (k', v') :: insertLoc r k v

/-- Python set `s.add(a)` (membership is all the code uses). -/
def addIfAbsent (l : List Str) (a : Str) : List Str := if a ∈ l then l else l ++ [a]

/-- The unresolvable-value test in `get_lat_lon`: the `"Not found"`
sentinel or `None` in either field. -/
def isBadPair (lat lon : JVal) : Bool :=
  lat = JVal.str nfChars ∨ lon = JVal.str nfChars ∨ lat = JVal.null ∨ lon = JVal.null

/-- What one call of `Trace.get_lat_lon` returns and does: its returned
value, the updated state, the addresses looked up outbound, and the
addresses a warning was logged for. -/
structure ResolveOut where
  res : Option (JVal × JVal)
  state : TraceState
  calls : List Str
  warns : List Str
  deriving DecidableEq

/-- `Trace.get_lat_lon`.  Blacklisted addresses return `None` with no
outbound call; cached addresses return the cached pair with no outbound
call; otherwise one outbound lookup is made: a transport/parse failure
logs a warning and changes nothing, a response with a missing field, a
`None` value or the `"Not found"` sentinel in either field blacklists
the address, and any other pair of values is stored and returned. -/
def get_lat_lon (prov : Provider) (s : TraceState) (ip_addr : Str) : ResolveOut :=
  if ip_addr ∈ s.blacklisted_ips then ⟨none, s, [], []⟩
  else match lookupLoc s.ip_locations ip_addr with
  | some v => ⟨some v, s, [], []⟩
  | none =>
    match prov ip_addr with
    | .failure => ⟨none, s, [ip_addr], [ip_addr]⟩
    | .ok lat? lon? =>
      match lat?, lon? with
      | some lat, some lon =>
        if isBadPair lat lon
        then ⟨none, ⟨s.ip_locations, addIfAbsent s.blacklisted_ips ip_addr⟩, [ip_addr], []⟩
        else ⟨some (lat, lon), ⟨insertLoc s.ip_locations ip_addr (lat, lon), s.blacklisted_ips⟩,
              [ip_addr], []⟩
      | _, _ => ⟨none, ⟨s.ip_locations, addIfAbsent s.blacklisted_ips ip_addr⟩, [ip_addr], []⟩

/-! ### The persisted cache file

`write_to_file` produces the lines written to `ip_lat_lon_cache.csv`;
`read_from_file` consumes the lines `readlines` would yield (trailing
newline included).  A missing or unreadable file is `none`. -/

/-- `line.split(',')`. -/
def splitOn (c : Char) : List Char → List (List Char)
  | [] => [[]]
  | x :: xs =>
    if x = c then [] :: splitOn c xs
    else
      match splitOn c xs with
      | [] => [[x]]
      | y :: ys => (x :: y) :: ys

/-- Strip the leading and trailing whitespace `float()` ignores. -/
def stripWS (l : List Char) : List Char :=
  ((l.dropWhile isWS).reverse.dropWhile isWS).reverse

/-- Exponent suffix of a Python float literal: `e`/`E`, optional sign,
at least one digit. -/
def applyExp (m : ℚ) (l : List Char) : Option ℚ :=
  match l with
  | [] => none
  | c :: r =>
    if c = '-' then
      if r.isEmpty || !r.all isDigitCh then none else some (m / 10 ^ charsToNat r)
    else
      let r' := if c = '+' then r else l
      if r'.isEmpty || !r'.all isDigitCh then none else some (m * 10 ^ charsToNat r')

/-- What may follow the mantissa of a Python float literal. -/
def afterMant (m : ℚ) (rest : List Char) : Option ℚ :=
  match rest with
  | [] => some m
  | c :: r => if c = 'e' ∨ c = 'E' then applyExp m r else none

/-- Unsigned Python float literal: digits, optionally a point and more
digits (at least one digit in total), optionally an exponent. -/
def parseUnsigned (l : List Char) : Option ℚ :=
  let ip := l.takeWhile isDigitCh
  let r1 := l.dropWhile isDigitCh
  match r1 with
  | [] => if ip.isEmpty then none else some ((charsToNat ip : ℚ))
  | c :: r2 =>
    if c = '.' then
      let fp := r2.takeWhile isDigitCh
      let r3 := r2.dropWhile isDigitCh
      if ip.isEmpty && fp.isEmpty then none
      else afterMant ((charsToNat (ip ++ fp) : ℚ) / 10 ^ fp.length) r3
    else if ip.isEmpty then none else afterMant ((charsToNat ip : ℚ)) (c :: r2)

/-- Signed Python float literal (after whitespace stripping). -/
def parseCore (l : List Char) : Option ℚ :=
  match l with
  | [] => parseUnsigned []
  | c :: r =>
    if c = '-' then (parseUnsigned r).map (fun q => -q)
    else if c = '+' then parseUnsigned r
    else parseUnsigned l

/-- Python `float(s)`: strip whitespace, then read a signed decimal
literal; `none` is the `ValueError` case. -/
def parseFloat (l : List Char) : Option ℚ := parseCore (stripWS l)

/-- Smallest power of ten clearing the denominator of `q`.  Every Python
float value (a dyadic rational with denominator at most `2 ^ 1074`) has
one; the bound 1200 covers them all. -/
def decExp (q : ℚ) : Option ℕ := (List.range 1200).find? fun k => 10 ^ k % q.den = 0

/-- The digits of `n / 10 ^ k` with the decimal point inserted: pad with
leading zeros to at least `k + 1` digits, then split `k` digits from the
right. -/
def renderDigits (n k : ℕ) : List Char :=
  let ds := natToChars n
  let ds' := List.replicate (k + 1 - ds.length) '0' ++ ds
  if k = 0 then ds' else ds'.take (ds'.length - k) ++ '.' :: ds'.drop (ds'.length - k)

/-- Decimal rendering of `q` using denominator-clearing exponent `k`. -/
def renderAt (q : ℚ) (k : ℕ) : List Char :=
  let m : ℤ := q.num * ((10 ^ k : ℕ) / q.den : ℕ)
  if m < 0 then '-' :: renderDigits m.natAbs k else renderDigits m.toNat k

/-- Rendering of a Python float value, as `f-string` interpolation
produces it: an exact decimal numeral the `float()` reader maps back to
the same value. -/
def renderQ (q : ℚ) : List Char :=
  match decExp q with
  | some k => renderAt q k
  | none => ['?']

/-- `f'{v}'` for a JSON value stored in the cache. -/
def renderJVal : JVal → List Char
  | .num q => renderQ q
  | .str s => s
  | .null => ("None").toList

/-- The header line the code writes and unconditionally skips. -/
def headerLine : Str := ("ip,latitude,longitude").toList ++ ['\n']

/-- One written cache row: `f'{ip}, {lat}, {lon}\n'`. -/
def lineOf (p : Str × (JVal × JVal)) : Str :=
  p.1 ++ (", ").toList ++ renderJVal p.2.1 ++ (", ").toList ++ renderJVal p.2.2 ++ ['\n']

/-- `Trace.write_to_file`: header plus one row per cache entry, in dict
order (write failures are logged and ignored, so the state never
changes; the produced lines are the observable effect). -/
def write_to_file (s : TraceState) : List Str :=
  headerLine :: s.ip_locations.map lineOf

/-- The loop body of `Trace.read_from_file`: split each line on commas,
convert with `float`; the first failure raises, which the surrounding
`except` catches — entries already written into the dict are kept and
the remaining lines are never read. -/
def readLines (d : List (Str × (JVal × JVal))) : List Str → List (Str × (JVal × JVal))
  | [] => d
  | line :: rest =>
    match splitOn ',' line with
    | [ip, latS, lonS] =>
      match parseFloat latS, parseFloat lonS with
      | some la, some lo => readLines (insertLoc d ip (JVal.num la, JVal.num lo)) rest
      | _, _ => d
    | _ => d

/-- `Trace.read_from_file`: a missing (or unopenable) file leaves the
state untouched; otherwise the header is skipped and the rows are folded
into the cache until the first malformed row. -/
def read_from_file (s : TraceState) (file : Option (List Str)) : TraceState :=
  match file with
  | none => s
  | some lines => ⟨readLines s.ip_locations (lines.drop 1), s.blacklisted_ips⟩

/-- Does a row parse completely (no exception on this line)? -/
def lineParses (l : Str) : Bool :=
  match splitOn ',' l with
  | [_, latS, lonS] => (parseFloat latS).isSome && (parseFloat lonS).isSome
  | _ => false

/-! ### `Trace.trace`

The path-discovery probe is an external collaborator: its result
`ans.res` is passed in as a list of `(sent_ip.dst, received_ip.src)`
pairs.  Reverse DNS is likewise passed in (`none` = lookup raised).  The
`timeout`, `maxttl` and `dport` arguments only parameterize the probe
and so do not appear in the model. -/

/-- The accumulators of the reply loop in `Trace.trace`: the resolver
state plus `lats`, `lons`, `text`, `received`, `msg` and `count`, with
the observable `calls`/`warns` threaded through. -/
structure LoopSt where
  st : TraceState
  lats : List JVal
  lons : List JVal
  text : List Str
  received : List Str
  msg : Str
  count : ℕ
  calls : List Str
  warns : List Str
  deriving DecidableEq

/-- `f'hop {count}: {received_ip.src if display_name else ""}'`. -/
def hopLabel (dn : Bool) (i : ℕ) (addr : Str) : Str :=
  ("hop ").toList ++ natToChars i ++ (": ").toList ++ (if dn then addr else [])

/-- `f'hop {count}: {ip}'` for the synthesized terminal hop (the
destination is shown unconditionally here). -/
def termLabel (i : ℕ) (addr : Str) : Str :=
  ("hop ").toList ++ natToChars i ++ (": ").toList ++ addr

/-- The `for sent_ip, received_ip in ans.res` loop: resolve each reply
address; on success append coordinate, label and summary fragment,
record the address as received and advance `count`; on failure change
nothing but the threaded resolver state. -/
def traceLoop (prov : Provider) (dn : Bool) : List (Str × Str) → LoopSt → LoopSt
  | [], a => a
  | (sd, rs) :: rest, a =>
    let r := get_lat_lon prov a.st rs
    match r.res with
    | some v =>
      traceLoop prov dn rest
        { st := r.state
          lats := a.lats ++ [v.1]
          lons := a.lons ++ [v.2]
          text := a.text ++ [hopLabel dn a.count rs]
          received := addIfAbsent a.received rs
          msg := a.msg ++ sd ++ (" [").toList ++ renderJVal v.1 ++ (", ").toList ++
            renderJVal v.2 ++ ("], ").toList
          count := a.count + 1
          calls := a.calls ++ r.calls
          warns := a.warns ++ r.warns }
    | none =>
      traceLoop prov dn rest
        { a with st := r.state, calls := a.calls ++ r.calls, warns := a.warns ++ r.warns }

/-- The loop accumulators as `trace` initializes them. -/
def initLoop (st : TraceState) (ip : Str) : LoopSt :=
  ⟨st, [], [], [], [], ("Route to ").toList ++ ip ++ (": ").toList, 1, [], []⟩

/-- `int(math.log(byte_count))`: `math.log` raises a domain error for a
non-positive argument; for a positive one it returns the truncated
logarithm.  The exact value for arguments above 1 is a floating-point
rounding of the real logarithm and nothing verified here depends on it;
the model uses a monotone integer logarithm that agrees with the code
where the claims touch it: at `byte_count = 1` (both give 0), in sign
(non-negative for positive arguments) and in the domain error. -/
def log2fuel : ℕ → ℕ → ℕ
  | 0, _ => 0
  | fuel + 1, n => if n ≤ 1 then 0 else log2fuel fuel (n / 2) + 1

/-- See `log2fuel`: domain guard plus truncated logarithm. -/
def pyIntLog (b : ℤ) : Except Unit ℕ :=
  if b ≤ 0 then .error () else .ok (log2fuel b.toNat b.toNat)

/-- The `go.Scattergeo` value `trace` returns: rendering mode, the
coordinate and label sequences, the summary name and the line-width
hint. -/
structure Scattergeo where
  mode : Str
  lons : List JVal
  lats : List JVal
  text : List Str
  name : Str
  line_width : ℚ
  deriving DecidableEq

/-- Everything one `trace` call does: the updated resolver state, the
outbound lookups and warnings it caused, the `logging.info` summary
line, and either the built `Scattergeo` or the propagated domain error
from the line-width computation. -/
structure TraceOut where
  state : TraceState
  calls : List Str
  warns : List Str
  info : Str
  result : Except Unit Scattergeo

/-- `Trace.trace`: run the reply loop; if the destination was never
received (resolved), attempt one extra resolution of it and, on
success, append it with the next label index; log the summary; pick
`markers` exactly when one coordinate was collected; build the name
from the optional reverse-DNS result; the `line={'width': ...}` hint
divides the truncated logarithm of `byte_count` by two, raising for a
non-positive `byte_count` after all resolver effects happened.

`traceAcc` is the accumulator state of `trace` after the reply loop and
the terminal-hop synthesis: run the loop; if the destination was never
received (resolved), attempt one extra resolution of it and, on success,
append it with the next label index. -/
def traceAcc (prov : Provider) (s : TraceState) (ip : Str) (replies : List (Str × Str))
    (display_name : Bool) : LoopSt :=
  let L := traceLoop prov display_name replies (initLoop s ip)
  if ip ∈ L.received then L
  else
    let r := get_lat_lon prov L.st ip
    match r.res with
    | some v =>
      { L with st := r.state
               lats := L.lats ++ [v.1]
               lons := L.lons ++ [v.2]
               text := L.text ++ [termLabel L.count ip]
               calls := L.calls ++ r.calls
               warns := L.warns ++ r.warns }
    | none => { L with st := r.state, calls := L.calls ++ r.calls, warns := L.warns ++ r.warns }

def trace (prov : Provider) (s : TraceState) (ip : Str) (replies : List (Str × Str))
    (hits byte_count : ℤ) (display_name : Bool) (host : Option Str) : TraceOut :=
  let F := traceAcc prov s ip replies display_name
  let mode := if F.lats.length = 1 then ("markers").toList else ("markers+lines").toList
  let nm :=
    if display_name then
      (match host with
       | some n => n ++ (" | ").toList
       | none => []) ++ (" ").toList ++ ip ++ ("<br>").toList
    else []
  let fullName :=
    nm ++ intToChars hits ++ (" packets, ").toList ++ intToChars byte_count ++ (" bytes").toList
  { state := F.st
    calls := F.calls
    warns := F.warns
    info := F.msg
    result :=
      match pyIntLog byte_count with
      | .error e => .error e
      | .ok k =>
        .ok { mode := mode, lons := F.lons, lats := F.lats, text := F.text, name := fullName,
              line_width := (k : ℚ) / 2 } }

/-- Shape test: did the built `Scattergeo` fail with the logarithm's
domain error? -/
def isDomainError (t : TraceOut) : Bool :=
  match t.result with
  | .error _ => true
  | .ok _ => false

/-- The built `Scattergeo`, when no domain error was raised. -/
def okRecord (t : TraceOut) : Option Scattergeo :=
  match t.result with
  | .error _ => none
  | .ok r => some r

/-! ### Runs

A run is a sequence of operations on one `Trace` object.  `read` and
`write` carry the file system interaction as data. -/

/-- One operation of a run. -/
inductive Op where
  | resolve (a : Str)
  | traceCall (ip : Str) (replies : List (Str × Str)) (hits bc : ℤ) (dn : Bool) (host : Option Str)
  | writeFile
  | readFile (file : Option (List Str))

/-- Is the operation a cache load? -/
def Op.isRead : Op → Bool
  | .readFile _ => true
  | _ => false

/-- The state after one operation. -/
def applyOp (prov : Provider) (s : TraceState) : Op → TraceState
  | .resolve a => (get_lat_lon prov s a).state
  | .traceCall ip rs h b dn host => (trace prov s ip rs h b dn host).state
  | .writeFile => s
  | .readFile f => read_from_file s f

/-- The outbound lookups one operation performs. -/
def opCalls (prov : Provider) (s : TraceState) : Op → List Str
  | .resolve a => (get_lat_lon prov s a).calls
  | .traceCall ip rs h b dn host => (trace prov s ip rs h b dn host).calls
  | .writeFile => []
  | .readFile _ => []

/-- The state after a sequence of operations. -/
def runOps (prov : Provider) : TraceState → List Op → TraceState
  | s, [] => s
  | s, op :: ops => runOps prov (applyOp prov s op) ops

/-- All outbound lookups a sequence of operations performs. -/
def runCalls (prov : Provider) : TraceState → List Op → List Str
  | _, [] => []
  | s, op :: ops => opCalls prov s op ++ runCalls prov (applyOp prov s op) ops

/-! ### Spec-side descriptions used in theorem statements -/

/-- Index a list from `i` upwards. -/
def numbered (i : ℕ) : List α → List (ℕ × α)
  | [] => []
  | x :: l => (i, x) :: numbered (i + 1) l

/-- The replies that resolve, with their coordinates, in reply order,
threading the resolver state exactly as the loop does. -/
def resolvedHops (prov : Provider) (st : TraceState) : List (Str × Str) → List (Str × (JVal × JVal))
  | [] => []
  | (_, rs) :: rest =>
    let r := get_lat_lon prov st rs
    match r.res with
    | some v => (rs, v) :: resolvedHops prov r.state rest
    | none => resolvedHops prov r.state rest

/-- A blacklisting provider response: structurally valid but with a
missing field, a `None` value, or the `"Not found"` sentinel. -/
def notFoundResp : ProviderResponse → Bool
  | .failure => false
  | .ok lat? lon? =>
    match lat?, lon? with
    | some lat, some lon => isBadPair lat lon
    | _, _ => true

/-- An address the resolver is settled on: cached or blacklisted. -/
def settled (s : TraceState) (a : Str) : Prop :=
  a ∈ s.blacklisted_ips ∨ lookupLoc s.ip_locations a ≠ none

/-- Keys that survive the comma-delimited, newline-terminated file
format. -/
def goodKey (k : Str) : Bool := k.all fun c => !(c = ',' || c = '\n')

/-- Cache values the file format round-trips: a pair of numbers, each
with a decimal rendering. -/
def renderable : JVal × JVal → Bool
  | (.num la, .num lo) => (decExp la).isSome && (decExp lo).isSome
  | _ => false

/-! ### Concrete runs used to instantiate the theorems -/

/-- A provider that resolves `1.1.1.1` and fails on everything else. -/
def provW1 : Provider := fun a =>
  if a = ("1.1.1.1").toList then .ok (some (.num 7)) (some (.num 8)) else .failure

def aW1 : Str := ("1.1.1.1").toList

def opsW1 : List Op :=
  [Op.resolve (("2.2.2.2").toList), Op.writeFile, Op.resolve aW1]

/-- A provider whose responses are valid but always report null
coordinates. -/
def provW2 : Provider := fun _ => .ok (some JVal.null) (some JVal.null)

def aW2 : Str := ("3.3.3.3").toList

def opsW2 : List Op := [Op.readFile (some [headerLine]), Op.resolve aW2]

/-- A provider whose responses always lack both coordinate fields. -/
def provC3 : Provider := fun _ => .ok none none

def aC3 : Str := ("9.9.9.9").toList

/-- A cache file (from an earlier run) that still has a row for
`9.9.9.9`. -/
def fileC3 : List Str := [headerLine, ("9.9.9.9, 1.0, 2.0").toList ++ ['\n']]

/-- Resolve `9.9.9.9` (which blacklists it), then load a cache file
containing it. -/
def opsC3 : List Op := [Op.resolve aC3, Op.readFile (some fileC3)]

def stateC3 : TraceState := runOps provC3 initState opsC3

def filesW3 : List (Option (List Str)) :=
  [none, some [headerLine, ("8.8.8.8, 4, 5").toList ++ ['\n']]]

def opsW3 : List Op :=
  [Op.resolve (("9.9.9.9").toList), Op.traceCall (("8.8.8.8").toList) [] 1 1 false none,
   Op.writeFile]

/-- A cache file whose second row is malformed. -/
def fileC4 : List Str :=
  [headerLine, ("6.6.6.6, 1.5, 2.5").toList ++ ['\n'], ("garbage").toList ++ ['\n']]

def goodW4 : List Str := [("6.6.6.6, 1.5, 2.5").toList ++ ['\n']]

def badW4 : Str := ("garbage").toList ++ ['\n']

/-- A provider returning string (non-numeric) coordinate values. -/
def provC5 : Provider := fun _ => .ok (some (.str (("xx").toList))) (some (.str (("yy").toList)))

def aC5 : Str := ("5.5.5.5").toList

/-- A reachable state whose cached value is non-numeric. -/
def stateC5 : TraceState := (get_lat_lon provC5 initState aC5).state

/-- A state with one numeric cache entry and a non-empty blacklist. -/
def stateW5 : TraceState :=
  ⟨[((("4.4.4.4").toList), (JVal.num 40, JVal.num (-74)))], [("z").toList]⟩

/-- A provider resolving hop 1 and the destination but failing on
hop 2. -/
def provC6 : Provider := fun a =>
  if a = ("11.0.0.1").toList then .ok (some (.num 1)) (some (.num 2))
  else if a = ("11.0.0.2").toList then .failure
  else .ok (some (.num 5)) (some (.num 6))

def dstC6 : Str := ("11.0.0.9").toList

/-- Three probe replies whose middle hop fails to resolve. -/
def repliesC6 : List (Str × Str) :=
  [(dstC6, ("11.0.0.1").toList), (dstC6, ("11.0.0.2").toList), (dstC6, dstC6)]

/-- A provider that resolves everything to one fixed coordinate. -/
def provW7 : Provider := fun _ => .ok (some (.num 40)) (some (.num (-74)))

def dstW7 : Str := ("12.0.0.1").toList

/-- A provider for which every lookup fails at transport level. -/
def provC8 : Provider := fun _ => .failure

def aC8 : Str := ("13.0.0.2").toList

def dstC8 : Str := ("13.0.0.9").toList

/-- Two probe replies from the same (transport-failing) address. -/
def repliesC8 : List (Str × Str) := [(dstC8, aC8), (dstC8, aC8)]

def aW8 : Str := ("13.0.0.3").toList

/-- A state that already has `13.0.0.3` cached. -/
def stateW8 : TraceState := ⟨[(aW8, (JVal.num 1, JVal.num 2))], []⟩

def opsW8 : List Op :=
  [Op.resolve aW8, Op.traceCall dstC8 [(dstC8, aW8), (dstC8, dstC8)] 1 1 false none,
   Op.readFile (some [headerLine]), Op.resolve aW8]

def dstC9 : Str := ("14.0.0.1").toList

/-- A provider returning a non-numeric latitude next to a numeric
longitude. -/
def provC10 : Provider := fun _ => .ok (some (.str (("oops").toList))) (some (.num 5))

def aC10 : Str := ("15.0.0.1").toList

/-! ## Basic lemmas about the dictionary and set operations -/

theorem not_mem_append {α : Type _} {x : α} {l₁ l₂ : List α} (h₁ : x ∉ l₁) (h₂ : x ∉ l₂) :
    x ∉ l₁ ++ l₂ := by
  simp only [List.mem_append]
  rintro (h | h)
  · exact h₁ h
  · exact h₂ h

theorem lookupLoc_insert_self (l : List (Str × (JVal × JVal))) (k : Str) (v : JVal × JVal) :
    lookupLoc (insertLoc l k v) k = some v := by
  induction l with
  | nil => simp [insertLoc, lookupLoc]
  | cons p r ih =>
    obtain ⟨k', v'⟩ := p
    by_cases h : k' = k
    · subst h
      simp [insertLoc, lookupLoc]
    · simp [insertLoc, lookupLoc, h, ih]

theorem lookupLoc_insert_ne (l : List (Str × (JVal × JVal))) (k : Str) (v : JVal × JVal)
    (x : Str) (h : x ≠ k) : lookupLoc (insertLoc l k v) x = lookupLoc l x := by
  induction l with
  | nil => simp [insertLoc, lookupLoc, Ne.symm h]
  | cons p r ih =>
    obtain ⟨k', v'⟩ := p
    by_cases hk : k' = k
    · subst hk
      simp [insertLoc, lookupLoc, Ne.symm h]
    · by_cases hx : k' = x
      · simp [insertLoc, lookupLoc, hk, hx, h]
      · simp [insertLoc, lookupLoc, hk, hx, ih]

theorem lookupLoc_insert_isSome (l : List (Str × (JVal × JVal))) (k : Str) (v : JVal × JVal)
    (x : Str) (h : lookupLoc l x ≠ none) : lookupLoc (insertLoc l k v) x ≠ none := by
  by_cases hx : x = k
  · subst hx
    rw [lookupLoc_insert_self]
    simp
  · rw [lookupLoc_insert_ne l k v x hx]
    exact h

theorem mem_addIfAbsent {l : List Str} {a x : Str} :
    x ∈ addIfAbsent l a ↔ x ∈ l ∨ x = a := by
  unfold addIfAbsent
  split
  · rename_i h
    constructor
    · exact Or.inl
    · rintro (hx | rfl)
      · exact hx
      · exact h
  · simp

/-! ## Case lemmas for `get_lat_lon` -/

theorem gll_black {prov : Provider} {s : TraceState} {ip : Str} (h : ip ∈ s.blacklisted_ips) :
    get_lat_lon prov s ip = ⟨none, s, [], []⟩ := by
  simp [get_lat_lon, h]

theorem gll_cached {prov : Provider} {s : TraceState} {ip : Str} {v : JVal × JVal}
    (hb : ip ∉ s.blacklisted_ips) (hl : lookupLoc s.ip_locations ip = some v) :
    get_lat_lon prov s ip = ⟨some v, s, [], []⟩ := by
  simp [get_lat_lon, hb, hl]

theorem gll_failure {prov : Provider} {s : TraceState} {ip : Str}
    (hb : ip ∉ s.blacklisted_ips) (hl : lookupLoc s.ip_locations ip = none)
    (hp : prov ip = .failure) :
    get_lat_lon prov s ip = ⟨none, s, [ip], [ip]⟩ := by
  simp [get_lat_lon, hb, hl, hp]

theorem gll_notfound {prov : Provider} {s : TraceState} {ip : Str}
    (hb : ip ∉ s.blacklisted_ips) (hl : lookupLoc s.ip_locations ip = none)
    (hp : notFoundResp (prov ip) = true) :
    get_lat_lon prov s ip =
      ⟨none, ⟨s.ip_locations, addIfAbsent s.blacklisted_ips ip⟩, [ip], []⟩ := by
  cases hpv : prov ip with
  | failure =>
    rw [hpv] at hp
    simp [notFoundResp] at hp
  | ok lat? lon? =>
    cases lat? with
    | none => simp [get_lat_lon, hb, hl, hpv]
    | some lat =>
      cases lon? with
      | none => simp [get_lat_lon, hb, hl, hpv]
      | some lon =>
        rw [hpv] at hp
        simp only [notFoundResp] at hp
        simp [get_lat_lon, hb, hl, hpv, hp]

theorem gll_success {prov : Provider} {s : TraceState} {ip : Str} {lat lon : JVal}
    (hb : ip ∉ s.blacklisted_ips) (hl : lookupLoc s.ip_locations ip = none)
    (hp : prov ip = .ok (some lat) (some lon)) (hgood : isBadPair lat lon = false) :
    get_lat_lon prov s ip =
      ⟨some (lat, lon), ⟨insertLoc s.ip_locations ip (lat, lon), s.blacklisted_ips⟩,
       [ip], []⟩ := by
  simp [get_lat_lon, hb, hl, hp, hgood]

/-- Exhaustive description of what one resolution can do to the state
and which outbound calls it makes. -/
theorem gll_shape (prov : Provider) (s : TraceState) (ip : Str) :
    ((get_lat_lon prov s ip).state = s ∧ (get_lat_lon prov s ip).calls = []) ∨
    (ip ∉ s.blacklisted_ips ∧ lookupLoc s.ip_locations ip = none ∧
      (get_lat_lon prov s ip).calls = [ip] ∧
      ((get_lat_lon prov s ip).state = s ∨
       (get_lat_lon prov s ip).state = ⟨s.ip_locations, addIfAbsent s.blacklisted_ips ip⟩ ∨
       ∃ v, (get_lat_lon prov s ip).state =
         ⟨insertLoc s.ip_locations ip v, s.blacklisted_ips⟩)) := by
  by_cases hb : ip ∈ s.blacklisted_ips
  · left
    rw [gll_black hb]
    exact ⟨rfl, rfl⟩
  · cases hl : lookupLoc s.ip_locations ip with
    | some v =>
      left
      rw [gll_cached hb hl]
      exact ⟨rfl, rfl⟩
    | none =>
      right
      refine ⟨hb, rfl, ?_⟩
      cases hpv : prov ip with
      | failure =>
        rw [gll_failure hb hl hpv]
        exact ⟨rfl, Or.inl rfl⟩
      | ok lat? lon? =>
        cases lat? with
        | none =>
          rw [gll_notfound hb hl (by rw [hpv]; rfl)]
          exact ⟨rfl, Or.inr (Or.inl rfl)⟩
        | some lat =>
          cases lon? with
          | none =>
            rw [gll_notfound hb hl (by rw [hpv]; rfl)]
            exact ⟨rfl, Or.inr (Or.inl rfl)⟩
          | some lon =>
            cases hbad : isBadPair lat lon with
            | true =>
              rw [gll_notfound hb hl (by rw [hpv]; simpa [notFoundResp] using hbad)]
              exact ⟨rfl, Or.inr (Or.inl rfl)⟩
            | false =>
              rw [gll_success hb hl hpv hbad]
              exact ⟨rfl, Or.inr (Or.inr ⟨(lat, lon), rfl⟩)⟩

/-- A successful resolution leaves the address cached with the returned
value and off the blacklist. -/
theorem gll_res_some_cached {prov : Provider} {s : TraceState} {a : Str} {v : JVal × JVal}
    (h : (get_lat_lon prov s a).res = some v) :
    lookupLoc (get_lat_lon prov s a).state.ip_locations a = some v ∧
    a ∉ (get_lat_lon prov s a).state.blacklisted_ips := by
  by_cases hb : a ∈ s.blacklisted_ips
  · rw [gll_black hb] at h
    cases h
  · cases hl : lookupLoc s.ip_locations a with
    | some w =>
      rw [gll_cached hb hl] at h ⊢
      obtain rfl : w = v := by simpa using h
      exact ⟨hl, hb⟩
    | none =>
      cases hpv : prov a with
      | failure =>
        rw [gll_failure hb hl hpv] at h
        cases h
      | ok lat? lon? =>
        cases lat? with
        | none =>
          rw [gll_notfound hb hl (by rw [hpv]; rfl)] at h
          cases h
        | some lat =>
          cases lon? with
          | none =>
            rw [gll_notfound hb hl (by rw [hpv]; rfl)] at h
            cases h
          | some lon =>
            cases hbad : isBadPair lat lon with
            | true =>
              rw [gll_notfound hb hl (by rw [hpv]; simpa [notFoundResp] using hbad)] at h
              cases h
            | false =>
              rw [gll_success hb hl hpv hbad] at h ⊢
              obtain rfl : (lat, lon) = v := by simpa using h
              exact ⟨lookupLoc_insert_self _ _ _, hb⟩

/-! ## Preservation lemmas: one resolution step -/

/-- A cached, non-blacklisted address stays cached with the same value,
stays off the blacklist, and is never the subject of an outbound call. -/
theorem gll_pres_cached {prov : Provider} {s : TraceState} {x : Str} {v : JVal × JVal}
    (h : lookupLoc s.ip_locations x = some v) (hb : x ∉ s.blacklisted_ips) (ip : Str) :
    lookupLoc (get_lat_lon prov s ip).state.ip_locations x = some v ∧
    x ∉ (get_lat_lon prov s ip).state.blacklisted_ips ∧
    x ∉ (get_lat_lon prov s ip).calls := by
  rcases gll_shape prov s ip with ⟨hs, hc⟩ | ⟨hb', hl', hc, hs⟩
  · rw [hs, hc]
    exact ⟨h, hb, by simp⟩
  · have hxip : x ≠ ip := by
      intro he
      rw [he, hl'] at h
      cases h
    refine ⟨?_, ?_, ?_⟩
    · rcases hs with hs | hs | ⟨w, hs⟩ <;> rw [hs]
      · exact h
      · exact h
      · rw [lookupLoc_insert_ne _ _ _ _ hxip]
        exact h
    · rcases hs with hs | hs | ⟨w, hs⟩ <;> rw [hs]
      · exact hb
      · intro hmem
        rcases mem_addIfAbsent.mp hmem with hmem' | he
        · exact hb hmem'
        · exact hxip he
      · exact hb
    · rw [hc]
      simp [hxip]

/-- A blacklisted address stays blacklisted and is never the subject of
an outbound call. -/
theorem gll_pres_black {prov : Provider} {s : TraceState} {x : Str}
    (h : x ∈ s.blacklisted_ips) (ip : Str) :
    x ∈ (get_lat_lon prov s ip).state.blacklisted_ips ∧
    x ∉ (get_lat_lon prov s ip).calls := by
  rcases gll_shape prov s ip with ⟨hs, hc⟩ | ⟨hb', hl', hc, hs⟩
  · rw [hs, hc]
    exact ⟨h, by simp⟩
  · have hxip : x ≠ ip := by
      intro he
      exact hb' (he ▸ h)
    constructor
    · rcases hs with hs | hs | ⟨w, hs⟩ <;> rw [hs]
      · exact h
      · exact mem_addIfAbsent.mpr (Or.inl h)
      · exact h
    · rw [hc]
      simp [hxip]

/-- A settled address (cached or blacklisted) stays settled and is never
the subject of an outbound call. -/
theorem gll_pres_settled {prov : Provider} {s : TraceState} {x : Str}
    (h : settled s x) (ip : Str) :
    settled (get_lat_lon prov s ip).state x ∧ x ∉ (get_lat_lon prov s ip).calls := by
  rcases h with hbl | hlk
  · obtain ⟨h1, h2⟩ := gll_pres_black hbl ip
    exact ⟨Or.inl h1, h2⟩
  · rcases gll_shape prov s ip with ⟨hs, hc⟩ | ⟨hb', hl', hc, hs⟩
    · rw [hs, hc]
      exact ⟨Or.inr hlk, by simp⟩
    · have hxip : x ≠ ip := by
        intro he
        exact hlk (he ▸ hl')
      constructor
      · right
        rcases hs with hs | hs | ⟨w, hs⟩ <;> rw [hs]
        · exact hlk
        · exact hlk
        · exact lookupLoc_insert_isSome _ _ _ _ hlk
      · rw [hc]
        simp [hxip]

/-- One resolution keeps the cache and the blacklist disjoint. -/
theorem gll_pres_disjoint (prov : Provider) {s : TraceState}
    (h : ∀ y ∈ s.blacklisted_ips, lookupLoc s.ip_locations y = none) (ip : Str) :
    ∀ y ∈ (get_lat_lon prov s ip).state.blacklisted_ips,
      lookupLoc (get_lat_lon prov s ip).state.ip_locations y = none := by
  rcases gll_shape prov s ip with ⟨hs, _⟩ | ⟨hb', hl', _, hs⟩
  · rw [hs]
    exact h
  · rcases hs with hs | hs | ⟨w, hs⟩ <;> rw [hs] <;> intro y hy
    · exact h y hy
    · rcases mem_addIfAbsent.mp hy with hy' | rfl
      · exact h y hy'
      · exact hl'
    · have hyip : y ≠ ip := by
        intro he
        exact hb' (he ▸ hy)
      rw [lookupLoc_insert_ne _ _ _ _ hyip]
      exact h y hy

/-! ## Preservation lemmas: the reply loop, `trace`, file loads, runs -/

theorem traceLoop_pres_cached (prov : Provider) (dn : Bool) {x : Str} {v : JVal × JVal}
    (rs : List (Str × Str)) (A : LoopSt)
    (h : lookupLoc A.st.ip_locations x = some v) (hb : x ∉ A.st.blacklisted_ips)
    (hcalls : x ∉ A.calls) :
    lookupLoc (traceLoop prov dn rs A).st.ip_locations x = some v ∧
    x ∉ (traceLoop prov dn rs A).st.blacklisted_ips ∧
    x ∉ (traceLoop prov dn rs A).calls := by
  induction rs generalizing A with
  | nil => exact ⟨h, hb, hcalls⟩
  | cons p rest ih =>
    obtain ⟨sd, rsrc⟩ := p
    obtain ⟨h', hb', hc'⟩ := gll_pres_cached h hb rsrc
    cases hres : (get_lat_lon prov A.st rsrc).res with
    | some w =>
      simp only [traceLoop, hres]
      exact ih _ h' hb' (not_mem_append hcalls hc')
    | none =>
      simp only [traceLoop, hres]
      exact ih _ h' hb' (not_mem_append hcalls hc')

theorem traceLoop_pres_black (prov : Provider) (dn : Bool) {x : Str}
    (rs : List (Str × Str)) (A : LoopSt)
    (h : x ∈ A.st.blacklisted_ips) (hcalls : x ∉ A.calls) :
    x ∈ (traceLoop prov dn rs A).st.blacklisted_ips ∧
    x ∉ (traceLoop prov dn rs A).calls := by
  induction rs generalizing A with
  | nil => exact ⟨h, hcalls⟩
  | cons p rest ih =>
    obtain ⟨sd, rsrc⟩ := p
    obtain ⟨h', hc'⟩ := gll_pres_black h rsrc
    cases hres : (get_lat_lon prov A.st rsrc).res with
    | some w =>
      simp only [traceLoop, hres]
      exact ih _ h' (not_mem_append hcalls hc')
    | none =>
      simp only [traceLoop, hres]
      exact ih _ h' (not_mem_append hcalls hc')

theorem traceLoop_pres_settled (prov : Provider) (dn : Bool) {x : Str}
    (rs : List (Str × Str)) (A : LoopSt)
    (h : settled A.st x) (hcalls : x ∉ A.calls) :
    settled (traceLoop prov dn rs A).st x ∧ x ∉ (traceLoop prov dn rs A).calls := by
  induction rs generalizing A with
  | nil => exact ⟨h, hcalls⟩
  | cons p rest ih =>
    obtain ⟨sd, rsrc⟩ := p
    obtain ⟨h', hc'⟩ := gll_pres_settled h rsrc
    cases hres : (get_lat_lon prov A.st rsrc).res with
    | some w =>
      simp only [traceLoop, hres]
      exact ih _ h' (not_mem_append hcalls hc')
    | none =>
      simp only [traceLoop, hres]
      exact ih _ h' (not_mem_append hcalls hc')

theorem traceLoop_pres_disjoint (prov : Provider) (dn : Bool)
    (rs : List (Str × Str)) (A : LoopSt)
    (h : ∀ y ∈ A.st.blacklisted_ips, lookupLoc A.st.ip_locations y = none) :
    ∀ y ∈ (traceLoop prov dn rs A).st.blacklisted_ips,
      lookupLoc (traceLoop prov dn rs A).st.ip_locations y = none := by
  induction rs generalizing A with
  | nil => exact h
  | cons p rest ih =>
    obtain ⟨sd, rsrc⟩ := p
    have h' := gll_pres_disjoint prov h rsrc
    cases hres : (get_lat_lon prov A.st rsrc).res with
    | some w =>
      simp only [traceLoop, hres]
      exact ih _ h'
    | none =>
      simp only [traceLoop, hres]
      exact ih _ h'

theorem traceAcc_pres_cached {prov : Provider} {s : TraceState} {x : Str} {v : JVal × JVal}
    (ip : Str) (replies : List (Str × Str)) (dn : Bool)
    (h : lookupLoc s.ip_locations x = some v) (hb : x ∉ s.blacklisted_ips) :
    lookupLoc (traceAcc prov s ip replies dn).st.ip_locations x = some v ∧
    x ∉ (traceAcc prov s ip replies dn).st.blacklisted_ips ∧
    x ∉ (traceAcc prov s ip replies dn).calls := by
  obtain ⟨h1, h2, h3⟩ :=
    traceLoop_pres_cached prov dn replies (initLoop s ip) h hb
      (by simp [initLoop])
  unfold traceAcc
  by_cases hmem : ip ∈ (traceLoop prov dn replies (initLoop s ip)).received
  · simp only [hmem, if_true]
    exact ⟨h1, h2, h3⟩
  · simp only [hmem, if_false]
    obtain ⟨h1', h2', h3'⟩ := gll_pres_cached h1 h2 ip
    cases hres : (get_lat_lon prov (traceLoop prov dn replies (initLoop s ip)).st ip).res with
    | some w =>
      simp only [hres]
      exact ⟨h1', h2', not_mem_append h3 h3'⟩
    | none =>
      simp only [hres]
      exact ⟨h1', h2', not_mem_append h3 h3'⟩

theorem traceAcc_pres_black {prov : Provider} {s : TraceState} {x : Str}
    (ip : Str) (replies : List (Str × Str)) (dn : Bool) (h : x ∈ s.blacklisted_ips) :
    x ∈ (traceAcc prov s ip replies dn).st.blacklisted_ips ∧
    x ∉ (traceAcc prov s ip replies dn).calls := by
  obtain ⟨h1, h3⟩ :=
    traceLoop_pres_black prov dn replies (initLoop s ip) h
      (by simp [initLoop])
  unfold traceAcc
  by_cases hmem : ip ∈ (traceLoop prov dn replies (initLoop s ip)).received
  · simp only [hmem, if_true]
    exact ⟨h1, h3⟩
  · simp only [hmem, if_false]
    obtain ⟨h1', h3'⟩ := gll_pres_black h1 ip
    cases hres : (get_lat_lon prov (traceLoop prov dn replies (initLoop s ip)).st ip).res with
    | some w =>
      simp only [hres]
      exact ⟨h1', not_mem_append h3 h3'⟩
    | none =>
      simp only [hres]
      exact ⟨h1', not_mem_append h3 h3'⟩

theorem traceAcc_pres_settled {prov : Provider} {s : TraceState} {x : Str}
    (ip : Str) (replies : List (Str × Str)) (dn : Bool) (h : settled s x) :
    settled (traceAcc prov s ip replies dn).st x ∧
    x ∉ (traceAcc prov s ip replies dn).calls := by
  obtain ⟨h1, h3⟩ :=
    traceLoop_pres_settled prov dn replies (initLoop s ip) h
      (by simp [initLoop])
  unfold traceAcc
  by_cases hmem : ip ∈ (traceLoop prov dn replies (initLoop s ip)).received
  · simp only [hmem, if_true]
    exact ⟨h1, h3⟩
  · simp only [hmem, if_false]
    obtain ⟨h1', h3'⟩ := gll_pres_settled h1 ip
    cases hres : (get_lat_lon prov (traceLoop prov dn replies (initLoop s ip)).st ip).res with
    | some w =>
      simp only [hres]
      exact ⟨h1', not_mem_append h3 h3'⟩
    | none =>
      simp only [hres]
      exact ⟨h1', not_mem_append h3 h3'⟩

theorem traceAcc_pres_disjoint {prov : Provider} {s : TraceState}
    (ip : Str) (replies : List (Str × Str)) (dn : Bool)
    (h : ∀ y ∈ s.blacklisted_ips, lookupLoc s.ip_locations y = none) :
    ∀ y ∈ (traceAcc prov s ip replies dn).st.blacklisted_ips,
      lookupLoc (traceAcc prov s ip replies dn).st.ip_locations y = none := by
  have h1 :=
    traceLoop_pres_disjoint prov dn replies (initLoop s ip) h
  unfold traceAcc
  by_cases hmem : ip ∈ (traceLoop prov dn replies (initLoop s ip)).received
  · simp only [hmem, if_true]
    exact h1
  · simp only [hmem, if_false]
    have h1' := gll_pres_disjoint prov h1 ip
    cases hres : (get_lat_lon prov (traceLoop prov dn replies (initLoop s ip)).st ip).res with
    | some w =>
      simp only [hres]
      exact h1'
    | none =>
      simp only [hres]
      exact h1'

/-- A file load never removes a cache entry. -/
theorem readLines_pres_isSome (lines : List Str) (d : List (Str × (JVal × JVal))) (x : Str)
    (h : lookupLoc d x ≠ none) : lookupLoc (readLines d lines) x ≠ none := by
  induction lines generalizing d with
  | nil => exact h
  | cons line rest ih =>
    unfold readLines
    split
    · split
      · exact ih _ (lookupLoc_insert_isSome _ _ _ _ h)
      · exact h
    · exact h

/-- A file load never touches the blacklist. -/
theorem read_from_file_black (s : TraceState) (f : Option (List Str)) :
    (read_from_file s f).blacklisted_ips = s.blacklisted_ips := by
  cases f <;> rfl

theorem applyOp_pres_cached {prov : Provider} {s : TraceState} {x : Str} {v : JVal × JVal}
    (h : lookupLoc s.ip_locations x = some v) (hb : x ∉ s.blacklisted_ips)
    (op : Op) (hop : op.isRead = false) :
    lookupLoc (applyOp prov s op).ip_locations x = some v ∧
    x ∉ (applyOp prov s op).blacklisted_ips ∧
    x ∉ opCalls prov s op := by
  cases op with
  | resolve a => exact gll_pres_cached h hb a
  | traceCall ip rs hi b dn host => exact traceAcc_pres_cached ip rs dn h hb
  | writeFile => exact ⟨h, hb, by simp [opCalls]⟩
  | readFile f => simp [Op.isRead] at hop

theorem applyOp_pres_black {prov : Provider} {s : TraceState} {x : Str}
    (h : x ∈ s.blacklisted_ips) (op : Op) :
    x ∈ (applyOp prov s op).blacklisted_ips ∧ x ∉ opCalls prov s op := by
  cases op with
  | resolve a => exact gll_pres_black h a
  | traceCall ip rs hi b dn host => exact traceAcc_pres_black ip rs dn h
  | writeFile => exact ⟨h, by simp [opCalls]⟩
  | readFile f =>
    refine ⟨?_, by simp [opCalls]⟩
    rw [show (applyOp prov s (Op.readFile f)) = read_from_file s f from rfl,
      read_from_file_black]
    exact h

theorem applyOp_pres_settled {prov : Provider} {s : TraceState} {x : Str}
    (h : settled s x) (op : Op) :
    settled (applyOp prov s op) x ∧ x ∉ opCalls prov s op := by
  cases op with
  | resolve a => exact gll_pres_settled h a
  | traceCall ip rs hi b dn host => exact traceAcc_pres_settled ip rs dn h
  | writeFile => exact ⟨h, by simp [opCalls]⟩
  | readFile f =>
    refine ⟨?_, by simp [opCalls]⟩
    rcases h with hbl | hlk
    · left
      rw [show (applyOp prov s (Op.readFile f)) = read_from_file s f from rfl,
        read_from_file_black]
      exact hbl
    · right
      cases f with
      | none => exact hlk
      | some lines => exact readLines_pres_isSome _ _ _ hlk

theorem applyOp_pres_disjoint {prov : Provider} {s : TraceState}
    (h : ∀ y ∈ s.blacklisted_ips, lookupLoc s.ip_locations y = none)
    (op : Op) (hop : op.isRead = false) :
    ∀ y ∈ (applyOp prov s op).blacklisted_ips,
      lookupLoc (applyOp prov s op).ip_locations y = none := by
  cases op with
  | resolve a => exact gll_pres_disjoint prov h a
  | traceCall ip rs hi b dn host => exact traceAcc_pres_disjoint ip rs dn h
  | writeFile => exact h
  | readFile f => simp [Op.isRead] at hop

theorem runOps_pres_cached {prov : Provider} {x : Str} {v : JVal × JVal}
    (ops : List Op) (s : TraceState)
    (h : lookupLoc s.ip_locations x = some v) (hb : x ∉ s.blacklisted_ips)
    (hops : ∀ op ∈ ops, op.isRead = false) :
    lookupLoc (runOps prov s ops).ip_locations x = some v ∧
    x ∉ (runOps prov s ops).blacklisted_ips ∧
    x ∉ runCalls prov s ops := by
  induction ops generalizing s with
  | nil => exact ⟨h, hb, by simp [runCalls]⟩
  | cons op rest ih =>
    obtain ⟨h', hb', hc'⟩ := applyOp_pres_cached h hb op (hops op (by simp))
    obtain ⟨h'', hb'', hc''⟩ := ih _ h' hb' fun o ho => hops o (by simp [ho])
    exact ⟨h'', hb'', by simp only [runCalls]; exact not_mem_append hc' hc''⟩

theorem runOps_pres_black (prov : Provider) {x : Str} (ops : List Op) (s : TraceState)
    (h : x ∈ s.blacklisted_ips) :
    x ∈ (runOps prov s ops).blacklisted_ips ∧ x ∉ runCalls prov s ops := by
  induction ops generalizing s with
  | nil => exact ⟨h, by simp [runCalls]⟩
  | cons op rest ih =>
    obtain ⟨h', hc'⟩ := applyOp_pres_black h op
    obtain ⟨h'', hc''⟩ := ih _ h'
    exact ⟨h'', by simp only [runCalls]; exact not_mem_append hc' hc''⟩

theorem runOps_pres_settled {prov : Provider} {x : Str} (ops : List Op) (s : TraceState)
    (h : settled s x) :
    settled (runOps prov s ops) x ∧ x ∉ runCalls prov s ops := by
  induction ops generalizing s with
  | nil => exact ⟨h, by simp [runCalls]⟩
  | cons op rest ih =>
    obtain ⟨h', hc'⟩ := applyOp_pres_settled h op
    obtain ⟨h'', hc''⟩ := ih _ h'
    exact ⟨h'', by simp only [runCalls]; exact not_mem_append hc' hc''⟩

theorem runOps_pres_disjoint {prov : Provider} (ops : List Op) (s : TraceState)
    (h : ∀ y ∈ s.blacklisted_ips, lookupLoc s.ip_locations y = none)
    (hops : ∀ op ∈ ops, op.isRead = false) :
    ∀ y ∈ (runOps prov s ops).blacklisted_ips,
      lookupLoc (runOps prov s ops).ip_locations y = none := by
  induction ops generalizing s with
  | nil => exact h
  | cons op rest ih =>
    exact ih _ (applyOp_pres_disjoint h op (hops op (by simp)))
      fun o ho => hops o (by simp [ho])

/-- Loading files never changes the blacklist. -/
theorem foldl_read_black (files : List (Option (List Str))) (s : TraceState) :
    (files.foldl read_from_file s).blacklisted_ips = s.blacklisted_ips := by
  induction files generalizing s with
  | nil => rfl
  | cons f rest ih => rw [List.foldl_cons, ih, read_from_file_black]

/-! ## Claim C1 -/

/-- C1: after a successful `Resolve(a)`, for every further sequence of
`Resolve`, `trace` and cache-save operations in the same run, the cached
entry for `a` still holds the returned coordinate (first successful
resolution wins), a subsequent `Resolve(a)` returns that identical
coordinate with no outbound call, and no operation of the sequence
issues an outbound call for `a`.  (Runs load the persisted cache once at
process start, so the sequence ranges over the non-load operations.) -/
theorem resolve_first_success_wins (prov : Provider) (s : TraceState) (a : Str)
    (v : JVal × JVal) (ops : List Op)
    (h : (get_lat_lon prov s a).res = some v)
    (hops : ∀ op ∈ ops, op.isRead = false) :
    lookupLoc (runOps prov (get_lat_lon prov s a).state ops).ip_locations a = some v ∧
    (get_lat_lon prov (runOps prov (get_lat_lon prov s a).state ops) a).res = some v ∧
    (get_lat_lon prov (runOps prov (get_lat_lon prov s a).state ops) a).calls = [] ∧
    a ∉ runCalls prov (get_lat_lon prov s a).state ops := by
  obtain ⟨h1, h2⟩ := gll_res_some_cached h
  obtain ⟨h1', h2', hc⟩ := runOps_pres_cached ops _ h1 h2 hops
  rw [gll_cached h2' h1']
  exact ⟨h1', rfl, rfl, hc⟩

theorem resolve_first_success_wins_witness :
    (get_lat_lon provW1 initState aW1).res = some (JVal.num 7, JVal.num 8) ∧
    (∀ op ∈ opsW1, op.isRead = false) ∧
    (lookupLoc (runOps provW1 (get_lat_lon provW1 initState aW1).state opsW1).ip_locations aW1
        = some (JVal.num 7, JVal.num 8) ∧
      (get_lat_lon provW1 (runOps provW1 (get_lat_lon provW1 initState aW1).state opsW1)
          aW1).res = some (JVal.num 7, JVal.num 8) ∧
      (get_lat_lon provW1 (runOps provW1 (get_lat_lon provW1 initState aW1).state opsW1)
          aW1).calls = [] ∧
      aW1 ∉ runCalls provW1 (get_lat_lon provW1 initState aW1).state opsW1) :=
  ⟨by decide, by decide,
    resolve_first_success_wins provW1 initState aW1 _ opsW1 (by decide) (by decide)⟩

/-! ## Claim C2 -/

/-- C2: when the provider's response for a fresh address is structurally
valid but reports not-found (missing field, `None` value or the
`"Not found"` sentinel), `Resolve` records the address in the blacklist
and returns nothing, and after every further sequence of run operations
(loads included) a `Resolve` of that address returns nothing with no
outbound call, and no operation of the sequence issues an outbound call
for it. -/
theorem blacklist_not_found_persists (prov : Provider) (s : TraceState) (a : Str)
    (ops : List Op)
    (hb : a ∉ s.blacklisted_ips) (hl : lookupLoc s.ip_locations a = none)
    (hresp : notFoundResp (prov a) = true) :
    (get_lat_lon prov s a).res = none ∧
    a ∈ (get_lat_lon prov s a).state.blacklisted_ips ∧
    (get_lat_lon prov (runOps prov (get_lat_lon prov s a).state ops) a).res = none ∧
    (get_lat_lon prov (runOps prov (get_lat_lon prov s a).state ops) a).calls = [] ∧
    a ∉ runCalls prov (get_lat_lon prov s a).state ops := by
  rw [gll_notfound hb hl hresp]
  have hmem : a ∈ addIfAbsent s.blacklisted_ips a := mem_addIfAbsent.mpr (Or.inr rfl)
  obtain ⟨h1, hc⟩ :=
    runOps_pres_black prov ops
      ⟨s.ip_locations, addIfAbsent s.blacklisted_ips a⟩ hmem
  rw [gll_black h1]
  exact ⟨rfl, hmem, rfl, rfl, hc⟩

theorem blacklist_not_found_persists_witness :
    (aW2 ∉ initState.blacklisted_ips) ∧
    lookupLoc initState.ip_locations aW2 = none ∧
    notFoundResp (provW2 aW2) = true ∧
    ((get_lat_lon provW2 initState aW2).res = none ∧
      aW2 ∈ (get_lat_lon provW2 initState aW2).state.blacklisted_ips ∧
      (get_lat_lon provW2 (runOps provW2 (get_lat_lon provW2 initState aW2).state opsW2)
          aW2).res = none ∧
      (get_lat_lon provW2 (runOps provW2 (get_lat_lon provW2 initState aW2).state opsW2)
          aW2).calls = [] ∧
      aW2 ∉ runCalls provW2 (get_lat_lon provW2 initState aW2).state opsW2) :=
  ⟨by decide, by decide, by decide,
    blacklist_not_found_persists provW2 initState aW2 opsW2 (by decide) (by decide) (by decide)⟩

/-! ## Claim C3 -/

/-- C3 counterexample: from a fresh resolver, resolving `9.9.9.9`
against a not-found response blacklists it, and a subsequent
`read_from_file` of a cache file that still contains a row for
`9.9.9.9` puts it into `locations` as well — the same address is then
in both the cache and the blacklist, so the claimed disjointness under
arbitrary operation sequences fails. -/
theorem locations_blacklist_overlap :
    lookupLoc stateC3.ip_locations aC3 ≠ none ∧ aC3 ∈ stateC3.blacklisted_ips := by
  exact ⟨by decide, by decide⟩

/-- C3 (amended): disjointness holds for the documented lifecycle: if
the persisted cache is loaded (any number of files, in any state of
repair) before the run's `Resolve`, `trace` and save operations begin,
then no address is ever in both `locations` and `blacklist`. -/
theorem disjoint_after_initial_loads (prov : Provider) (files : List (Option (List Str)))
    (ops : List Op) (hops : ∀ op ∈ ops, op.isRead = false) (a : Str)
    (hmem : a ∈ (runOps prov (files.foldl read_from_file initState) ops).blacklisted_ips) :
    lookupLoc (runOps prov (files.foldl read_from_file initState) ops).ip_locations a
      = none := by
  have hinit : ∀ y ∈ (files.foldl read_from_file initState).blacklisted_ips,
      lookupLoc (files.foldl read_from_file initState).ip_locations y = none := by
    intro y hy
    rw [foldl_read_black] at hy
    cases hy
  exact runOps_pres_disjoint ops _ hinit hops a hmem

theorem disjoint_after_initial_loads_witness :
    (∀ op ∈ opsW3, op.isRead = false) ∧
    aC3 ∈ (runOps provC3 (filesW3.foldl read_from_file initState) opsW3).blacklisted_ips ∧
    lookupLoc (runOps provC3 (filesW3.foldl read_from_file initState) opsW3).ip_locations aC3
      = none :=
  ⟨by decide, by decide,
    disjoint_after_initial_loads provC3 filesW3 opsW3 (by decide) aC3 (by decide)⟩

/-! ## Claim C8 -/

/-- C8 counterexample: with a transport-failing provider, one `trace`
call whose probe saw the same address twice looks that address up
outbound twice in the same run (plus once for the destination), so "at
most one outbound lookup per distinct address per run regardless of
outcome" fails. -/
theorem repeated_lookup_cex :
    (trace provC8 initState dstC8 repliesC8 1 1 false none).calls = [aC8, aC8, dstC8] ∧
    (trace provC8 initState dstC8 repliesC8 1 1 false none).calls.count aC8 = 2 := by
  exact ⟨by decide, by decide⟩

/-- C8 (amended): on a transport/parse failure `Resolve` logs a warning
for the address, returns nothing and leaves the state unchanged — in
particular it does not blacklist; and an address is never looked up
outbound again once it is settled (cached or blacklisted).  A
transport-failed address is left unsettled, so it may be looked up again
when it recurs in the same or a later `trace` call of the run. -/
theorem failure_warns_and_settled_never_requeried (prov : Provider) (a : Str) :
    (∀ s : TraceState, a ∉ s.blacklisted_ips → lookupLoc s.ip_locations a = none →
      prov a = .failure → get_lat_lon prov s a = ⟨none, s, [a], [a]⟩) ∧
    (∀ (s : TraceState) (ops : List Op), settled s a → a ∉ runCalls prov s ops) :=
  ⟨fun _ hb hl hp => gll_failure hb hl hp,
   fun s ops h => (runOps_pres_settled ops s h).2⟩

theorem failure_warns_and_settled_never_requeried_witness :
    (aC8 ∉ initState.blacklisted_ips) ∧
    lookupLoc initState.ip_locations aC8 = none ∧
    provC8 aC8 = ProviderResponse.failure ∧
    get_lat_lon provC8 initState aC8 = ⟨none, initState, [aC8], [aC8]⟩ ∧
    settled stateW8 aW8 ∧
    aW8 ∉ runCalls provC8 stateW8 opsW8 :=
  ⟨by decide, by decide, by decide,
    (failure_warns_and_settled_never_requeried provC8 aC8).1 initState (by decide) (by decide)
      (by decide),
    Or.inr (by decide),
    (failure_warns_and_settled_never_requeried provC8 aW8).2 stateW8 opsW8 (Or.inr (by decide))⟩

/-! ## The reply loop, hop by hop -/

/-- What the reply loop produces, for any starting accumulators: the
labels are the resolved replies numbered consecutively from the starting
counter, the collected latitudes are those of the resolved replies in
reply order, the counter advances once per resolved reply, and an
address was received exactly if it was already received or is a resolved
reply address. -/
theorem traceLoop_spec (prov : Provider) (dn : Bool) (rs : List (Str × Str)) (A : LoopSt) :
    (traceLoop prov dn rs A).text
      = A.text ++ (numbered A.count (resolvedHops prov A.st rs)).map
          (fun p => hopLabel dn p.1 p.2.1) ∧
    (traceLoop prov dn rs A).lats
      = A.lats ++ (resolvedHops prov A.st rs).map (fun p => p.2.1) ∧
    (traceLoop prov dn rs A).count = A.count + (resolvedHops prov A.st rs).length ∧
    (∀ x, x ∈ (traceLoop prov dn rs A).received ↔
      x ∈ A.received ∨ x ∈ (resolvedHops prov A.st rs).map Prod.fst) := by
  induction rs generalizing A with
  | nil => simp [traceLoop, resolvedHops, numbered]
  | cons p rest ih =>
    obtain ⟨sd, rsrc⟩ := p
    cases hres : (get_lat_lon prov A.st rsrc).res with
    | some v =>
      simp only [traceLoop, hres, resolvedHops]
      refine ⟨?_, ?_, ?_, ?_⟩
      · rw [(ih _).1]
        simp [numbered]
      · rw [(ih _).2.1]
        simp
      · rw [(ih _).2.2.1]
        simp
        omega
      · intro x
        rw [(ih _).2.2.2 x]
        simp only [mem_addIfAbsent, List.map_cons, List.mem_cons]
        constructor
        · rintro ((hx | rfl) | hx)
          · exact Or.inl hx
          · exact Or.inr (Or.inl rfl)
          · exact Or.inr (Or.inr hx)
        · rintro (hx | rfl | hx)
          · exact Or.inl (Or.inl hx)
          · exact Or.inl (Or.inr rfl)
          · exact Or.inr hx
    | none =>
      simp only [traceLoop, hres, resolvedHops]
      refine ⟨?_, ?_, ?_, ?_⟩
      · rw [(ih _).1]
      · rw [(ih _).2.1]
      · rw [(ih _).2.2.1]
      · intro x
        rw [(ih _).2.2.2 x]

/-- When the destination was not among the received addresses, the calls
of `trace` are the loop's calls followed by those of the one extra
resolution of the destination. -/
theorem traceAcc_calls_not_received {prov : Provider} {s : TraceState} {ip : Str}
    {replies : List (Str × Str)} {dn : Bool}
    (hmem : ip ∉ (traceLoop prov dn replies (initLoop s ip)).received) :
    (traceAcc prov s ip replies dn).calls
      = (traceLoop prov dn replies (initLoop s ip)).calls
        ++ (get_lat_lon prov (traceLoop prov dn replies (initLoop s ip)).st ip).calls := by
  unfold traceAcc
  rw [if_neg hmem]
  cases hres : (get_lat_lon prov (traceLoop prov dn replies (initLoop s ip)).st ip).res <;>
    simp only [hres]

/-- When the destination was not received and its extra resolution
succeeds, `trace`'s accumulators append the destination as a final hop
labelled with the current counter. -/
theorem traceAcc_not_received_some {prov : Provider} {s : TraceState} {ip : Str}
    {replies : List (Str × Str)} {dn : Bool} {v : JVal × JVal}
    (hmem : ip ∉ (traceLoop prov dn replies (initLoop s ip)).received)
    (hres : (get_lat_lon prov (traceLoop prov dn replies (initLoop s ip)).st ip).res = some v) :
    traceAcc prov s ip replies dn =
      { traceLoop prov dn replies (initLoop s ip) with
        st := (get_lat_lon prov (traceLoop prov dn replies (initLoop s ip)).st ip).state
        lats := (traceLoop prov dn replies (initLoop s ip)).lats ++ [v.1]
        lons := (traceLoop prov dn replies (initLoop s ip)).lons ++ [v.2]
        text := (traceLoop prov dn replies (initLoop s ip)).text
          ++ [termLabel (traceLoop prov dn replies (initLoop s ip)).count ip]
        calls := (traceLoop prov dn replies (initLoop s ip)).calls
          ++ (get_lat_lon prov (traceLoop prov dn replies (initLoop s ip)).st ip).calls
        warns := (traceLoop prov dn replies (initLoop s ip)).warns
          ++ (get_lat_lon prov (traceLoop prov dn replies (initLoop s ip)).st ip).warns } := by
  unfold traceAcc
  rw [if_neg hmem]
  simp only [hres]

/-- Projections of the record `trace` builds when the line-width
computation does not raise. -/
theorem trace_okRecord (prov : Provider) (s : TraceState) (ip : Str)
    (replies : List (Str × Str)) (hits bc : ℤ) (dn : Bool) (host : Option Str)
    (k : ℕ) (hk : pyIntLog bc = Except.ok k) :
    (okRecord (trace prov s ip replies hits bc dn host)).map Scattergeo.text
      = some (traceAcc prov s ip replies dn).text ∧
    (okRecord (trace prov s ip replies hits bc dn host)).map Scattergeo.lats
      = some (traceAcc prov s ip replies dn).lats ∧
    (okRecord (trace prov s ip replies hits bc dn host)).map Scattergeo.mode
      = some (if (traceAcc prov s ip replies dn).lats.length = 1
          then ("markers").toList else ("markers+lines").toList) ∧
    (okRecord (trace prov s ip replies hits bc dn host)).map Scattergeo.line_width
      = some ((k : ℚ) / 2) := by
  unfold trace okRecord
  rw [hk]
  exact ⟨rfl, rfl, rfl, rfl⟩

/-- A non-positive `byte_count` makes the line-width computation raise. -/
theorem pyIntLog_nonpos {b : ℤ} (h : b ≤ 0) : pyIntLog b = Except.error () := by
  simp [pyIntLog, h]

/-- The domain error of the logarithm propagates out of `trace`. -/
theorem trace_domain_error (prov : Provider) (s : TraceState) (ip : Str)
    (replies : List (Str × Str)) (hits b : ℤ) (dn : Bool) (host : Option Str)
    (hb : pyIntLog b = Except.error ()) :
    isDomainError (trace prov s ip replies hits b dn host) = true := by
  unfold trace isDomainError
  rw [hb]

/-! ## Claim C6 -/

/-- C6: an unresolved reply contributes no hop and does not advance the
hop index: starting from `trace`'s initial accumulators, the collected
labels are exactly the resolved replies numbered contiguously from 1,
the collected latitudes are exactly theirs, and the counter ends at one
past the number of resolved replies.  In particular, in a concrete trace
whose middle reply of three fails to resolve, the record has exactly the
2 hops `hop 1`/`hop 2` (not `hop 1`/`hop 3`). -/
theorem hop_indices_contiguous :
    (∀ (prov : Provider) (dn : Bool) (s : TraceState) (ip : Str)
        (replies : List (Str × Str)),
      (traceLoop prov dn replies (initLoop s ip)).text
        = (numbered 1 (resolvedHops prov s replies)).map (fun p => hopLabel dn p.1 p.2.1) ∧
      (traceLoop prov dn replies (initLoop s ip)).lats
        = (resolvedHops prov s replies).map (fun p => p.2.1) ∧
      (traceLoop prov dn replies (initLoop s ip)).count
        = 1 + (resolvedHops prov s replies).length) ∧
    (okRecord (trace provC6 initState dstC6 repliesC6 1 1 true none)).map Scattergeo.text
      = some [("hop 1: 11.0.0.1").toList, ("hop 2: 11.0.0.9").toList] ∧
    (okRecord (trace provC6 initState dstC6 repliesC6 1 1 true none)).map
      (fun r => r.lats.length) = some 2 := by
  refine ⟨?_, by decide, by decide⟩
  intro prov dn s ip replies
  obtain ⟨ht, hl, hc, _⟩ := traceLoop_spec prov dn replies (initLoop s ip)
  exact ⟨by simpa [initLoop] using ht, by simpa [initLoop] using hl,
    by simpa [initLoop] using hc⟩

/-! ## Claim C7 -/

/-- C7: if the destination never appeared among the resolved reply
addresses, `trace` attempts exactly one extra resolution of the
destination, and when that succeeds the destination is appended as the
final hop with the next sequential index; with zero replies and a
successful destination resolution the record has exactly one hop and
point-only (`markers`) rendering mode. -/
theorem terminal_hop_synthesis (prov : Provider) (s : TraceState) (ip : Str)
    (replies : List (Str × Str)) (hits bc : ℤ) (dn : Bool) (host : Option Str)
    (hnot : ip ∉ (resolvedHops prov s replies).map Prod.fst) :
    (trace prov s ip replies hits bc dn host).calls
      = (traceLoop prov dn replies (initLoop s ip)).calls
        ++ (get_lat_lon prov (traceLoop prov dn replies (initLoop s ip)).st ip).calls ∧
    ∀ v, (get_lat_lon prov (traceLoop prov dn replies (initLoop s ip)).st ip).res = some v →
      ∀ k, pyIntLog bc = Except.ok k →
        (okRecord (trace prov s ip replies hits bc dn host)).map Scattergeo.text
          = some ((traceLoop prov dn replies (initLoop s ip)).text
              ++ [termLabel (1 + (resolvedHops prov s replies).length) ip]) ∧
        (okRecord (trace prov s ip replies hits bc dn host)).map Scattergeo.lats
          = some ((traceLoop prov dn replies (initLoop s ip)).lats ++ [v.1]) ∧
        (replies = [] →
          (okRecord (trace prov s ip replies hits bc dn host)).map Scattergeo.lats
            = some [v.1] ∧
          (okRecord (trace prov s ip replies hits bc dn host)).map Scattergeo.mode
            = some (("markers").toList)) := by
  have hspec := traceLoop_spec prov dn replies (initLoop s ip)
  have hmem : ip ∉ (traceLoop prov dn replies (initLoop s ip)).received := by
    intro hmemr
    rcases (hspec.2.2.2 ip).mp hmemr with h0 | h1
    · simp [initLoop] at h0
    · exact hnot h1
  constructor
  · exact traceAcc_calls_not_received hmem
  · intro v hres k hk
    have hF := traceAcc_not_received_some hmem hres
    obtain ⟨htext, hlats, hmode, _⟩ := trace_okRecord prov s ip replies hits bc dn host k hk
    have hcount : (traceLoop prov dn replies (initLoop s ip)).count
        = 1 + (resolvedHops prov s replies).length := by
      simpa [initLoop] using hspec.2.2.1
    refine ⟨?_, ?_, ?_⟩
    · rw [htext, hF]
      simp [hcount]
    · rw [hlats, hF]
    · rintro rfl
      constructor
      · rw [hlats, hF]
        simp [traceLoop, initLoop]
      · rw [hmode, hF]
        simp [traceLoop, initLoop]

theorem terminal_hop_synthesis_witness :
    (dstW7 ∉ (resolvedHops provW7 initState ([] : List (Str × Str))).map Prod.fst) ∧
    (get_lat_lon provW7 (traceLoop provW7 false [] (initLoop initState dstW7)).st dstW7).res
      = some (JVal.num 40, JVal.num (-74)) ∧
    pyIntLog 1 = Except.ok 0 ∧
    ((okRecord (trace provW7 initState dstW7 [] 1 1 false none)).map Scattergeo.lats
        = some [JVal.num 40] ∧
      (okRecord (trace provW7 initState dstW7 [] 1 1 false none)).map Scattergeo.mode
        = some (("markers").toList)) :=
  ⟨by decide, by decide, rfl,
    ((terminal_hop_synthesis provW7 initState dstW7 [] 1 1 false none (by decide)).2
      (JVal.num 40, JVal.num (-74)) (by decide) 0 rfl).2.2 rfl⟩

/-! ## Claim C9 -/

/-- C9 counterexample: a `trace` call with `byteCount = 0` is not
guarded: the logarithm's domain error propagates as a raised error
rather than being rejected or clamped. -/
theorem width_domain_error_cex :
    isDomainError (trace provC8 initState dstC9 [] 1 0 false none) = true := by
  decide

/-- C9 (amended): at `byteCount = 1` the line-width hint evaluates
without a domain error to the defined, non-negative value 0, and in
general to half the non-negative truncated logarithm; but `byteCount ≤ 0`
is not guarded — the domain error of the logarithm propagates out of
`trace`. -/
theorem line_width_behavior (prov : Provider) (s : TraceState) (ip : Str)
    (replies : List (Str × Str)) (hits : ℤ) (dn : Bool) (host : Option Str) :
    ((okRecord (trace prov s ip replies hits 1 dn host)).map Scattergeo.line_width
        = some 0 ∧
      ∀ b : ℤ, ∀ k : ℕ, pyIntLog b = Except.ok k →
        (okRecord (trace prov s ip replies hits b dn host)).map Scattergeo.line_width
          = some ((k : ℚ) / 2) ∧ (0 : ℚ) ≤ (k : ℚ) / 2) ∧
    (∀ b : ℤ, b ≤ 0 → isDomainError (trace prov s ip replies hits b dn host) = true) := by
  refine ⟨⟨?_, ?_⟩, ?_⟩
  · have h := (trace_okRecord prov s ip replies hits 1 dn host 0 rfl).2.2.2
    rw [h]
    norm_num
  · intro b k hk
    refine ⟨(trace_okRecord prov s ip replies hits b dn host k hk).2.2.2, ?_⟩
    positivity
  · intro b hb
    exact trace_domain_error prov s ip replies hits b dn host (pyIntLog_nonpos hb)

theorem line_width_behavior_witness :
    pyIntLog 2 = Except.ok 1 ∧
    ((okRecord (trace provC8 initState dstC9 [] 1 2 false none)).map Scattergeo.line_width
        = some ((1 : ℚ) / 2) ∧ (0 : ℚ) ≤ (1 : ℚ) / 2) ∧
    ((-3 : ℤ) ≤ 0) ∧
    isDomainError (trace provC8 initState dstC9 [] 1 (-3) false none) = true :=
  ⟨rfl,
    (line_width_behavior provC8 initState dstC9 [] 1 false none).1.2 2 1 rfl,
    by decide,
    (line_width_behavior provC8 initState dstC9 [] 1 false none).2 (-3) (by decide)⟩

/-! ## Claim C10 -/

/-- C10 counterexample: a structurally valid response whose latitude is
the non-numeric string `"oops"` (neither null nor the sentinel) is
nonetheless stored in `locations` and returned as a coordinate. -/
theorem nonnumeric_stored_cex :
    (get_lat_lon provC10 initState aC10).res
      = some (JVal.str (("oops").toList), JVal.num 5) ∧
    lookupLoc (get_lat_lon provC10 initState aC10).state.ip_locations aC10
      = some (JVal.str (("oops").toList), JVal.num 5) := by
  exact ⟨by decide, by decide⟩

/-- C10 (amended): for a fresh address, `Resolve` stores and returns
the provider's value pair whenever both fields are present and neither
is null nor the `"Not found"` sentinel — no numeric check is performed,
so non-numeric values pass through. -/
theorem store_any_non_sentinel (prov : Provider) (s : TraceState) (a : Str) (lat lon : JVal)
    (hb : a ∉ s.blacklisted_ips) (hl : lookupLoc s.ip_locations a = none)
    (hp : prov a = .ok (some lat) (some lon))
    (hgood : isBadPair lat lon = false) :
    (get_lat_lon prov s a).res = some (lat, lon) ∧
    lookupLoc (get_lat_lon prov s a).state.ip_locations a = some (lat, lon) := by
  rw [gll_success hb hl hp hgood]
  exact ⟨rfl, lookupLoc_insert_self _ _ _⟩

theorem store_any_non_sentinel_witness :
    (aC10 ∉ initState.blacklisted_ips) ∧
    lookupLoc initState.ip_locations aC10 = none ∧
    provC10 aC10 = ProviderResponse.ok (some (JVal.str (("oops").toList))) (some (JVal.num 5)) ∧
    isBadPair (JVal.str (("oops").toList)) (JVal.num 5) = false ∧
    ((get_lat_lon provC10 initState aC10).res
        = some (JVal.str (("oops").toList), JVal.num 5) ∧
      lookupLoc (get_lat_lon provC10 initState aC10).state.ip_locations aC10
        = some (JVal.str (("oops").toList), JVal.num 5)) :=
  ⟨by decide, by decide, by decide, by decide,
    store_any_non_sentinel provC10 initState aC10 _ _ (by decide) (by decide) (by decide)
      (by decide)⟩

/-! ## Claim C4 -/

/-- A line that fails to parse stops the load, keeping the dictionary. -/
theorem readLines_stop (d : List (Str × (JVal × JVal))) (bad : Str) (rest : List Str)
    (hbad : lineParses bad = false) :
    readLines d (bad :: rest) = d := by
  unfold readLines
  split
  · rename_i ip latS lonS heq
    have hbad' : ((parseFloat latS).isSome && (parseFloat lonS).isSome) = false := by
      unfold lineParses at hbad
      simp only [heq] at hbad
      exact hbad
    split
    · rename_i la lo hla hlo
      rw [hla, hlo] at hbad'
      simp at hbad'
    · rfl
  · rfl

/-- A parsing line decomposes into its three comma fields and their two
float values. -/
theorem lineParses_elim {line : Str} (h : lineParses line = true) :
    ∃ ip latS lonS la lo, splitOn ',' line = [ip, latS, lonS] ∧
      parseFloat latS = some la ∧ parseFloat lonS = some lo := by
  unfold lineParses at h
  split at h
  · rename_i ip latS lonS heq
    cases hla : parseFloat latS with
    | none =>
      rw [hla] at h
      simp at h
    | some la =>
      cases hlo : parseFloat lonS with
      | none =>
        rw [hlo] at h
        simp at h
      | some lo => exact ⟨ip, latS, lonS, la, lo, heq, hla, hlo⟩
  · cases h

/-- One parsing line inserts its entry and the load continues. -/
theorem readLines_cons_eq (d : List (Str × (JVal × JVal))) {line : Str} (rest : List Str)
    {ip latS lonS : Str} {la lo : ℚ}
    (heq : splitOn ',' line = [ip, latS, lonS])
    (hla : parseFloat latS = some la) (hlo : parseFloat lonS = some lo) :
    readLines d (line :: rest)
      = readLines (insertLoc d ip (JVal.num la, JVal.num lo)) rest := by
  conv_lhs => rw [readLines]
  simp only [heq, hla, hlo]

/-- C4 counterexample: loading a cache file whose second row is
malformed does not leave the cache empty — the row parsed before the
failure is kept. -/
theorem load_keeps_partial_cex :
    (read_from_file initState (some fileC4)).ip_locations ≠ [] ∧
    lookupLoc (read_from_file initState (some fileC4)).ip_locations (("6.6.6.6").toList)
      ≠ none := by
  exact ⟨by decide, by decide⟩

/-- C4 (amended): a missing or unreadable store leaves the cache
unchanged (empty on a fresh resolver) without raising; on a malformed
line the load stops without raising, keeping the entries parsed before
the malformed line and ignoring the remainder — partial data is kept,
not discarded. -/
theorem load_malformed_keeps_parsed (s : TraceState) (d : List (Str × (JVal × JVal)))
    (good : List Str) (bad : Str) (rest : List Str)
    (hgood : ∀ l ∈ good, lineParses l = true) (hbad : lineParses bad = false) :
    read_from_file s none = s ∧
    readLines d (good ++ bad :: rest) = readLines d good := by
  refine ⟨rfl, ?_⟩
  induction good generalizing d with
  | nil =>
    simp only [List.nil_append]
    rw [readLines_stop _ _ _ hbad]
    rfl
  | cons line ls ih =>
    obtain ⟨ip, latS, lonS, la, lo, heq, hla, hlo⟩ := lineParses_elim (hgood line (by simp))
    rw [List.cons_append, readLines_cons_eq _ _ heq hla hlo,
      readLines_cons_eq _ _ heq hla hlo]
    exact ih _ fun l hl => hgood l (by simp [hl])

theorem load_malformed_keeps_parsed_witness :
    (∀ l ∈ goodW4, lineParses l = true) ∧
    lineParses badW4 = false ∧
    (read_from_file initState none = initState ∧
      readLines [] (goodW4 ++ badW4 :: []) = readLines [] goodW4) :=
  ⟨by decide, by decide,
    load_malformed_keeps_parsed initState [] goodW4 badW4 [] (by decide) (by decide)⟩

/-! ## Digit strings: rendering and reading back -/

theorem digVal_digitChar {d : ℕ} (h : d < 10) : digVal (digitChar d) = d := by
  interval_cases d <;> rfl

theorem isDigitCh_digitChar {d : ℕ} (h : d < 10) : isDigitCh (digitChar d) = true := by
  interval_cases d <;> rfl

/-- A digit character is distinct from any non-digit character. -/
theorem digit_ne_of {c d : Char} (h : isDigitCh c = true) (hd : isDigitCh d = false) :
    c ≠ d := by
  intro he
  rw [he, hd] at h
  cases h

theorem digit_not_ws {c : Char} (h : isDigitCh c = true) : isWS c = false := by
  cases hws : isWS c with
  | false => rfl
  | true =>
    unfold isWS at hws
    simp only [Bool.or_eq_true, beq_iff_eq] at hws
    rcases hws with ((rfl | rfl) | rfl) | rfl <;> exact absurd h (by decide)

theorem natToCharsAux_digits (fuel n : ℕ) : ∀ c ∈ natToCharsAux fuel n, isDigitCh c = true := by
  induction fuel generalizing n with
  | zero => simp [natToCharsAux]
  | succ f ih =>
    cases n with
    | zero => simp [natToCharsAux]
    | succ m =>
      intro c hc
      simp only [natToCharsAux, List.mem_append, List.mem_singleton] at hc
      rcases hc with hc | rfl
      · exact ih _ c hc
      · exact isDigitCh_digitChar (Nat.mod_lt _ (by norm_num))

theorem natToChars_digits (n : ℕ) : ∀ c ∈ natToChars n, isDigitCh c = true := by
  unfold natToChars
  split
  · intro c hc
    simp only [List.mem_singleton] at hc
    subst hc
    rfl
  · exact natToCharsAux_digits _ _

theorem natToChars_ne_nil (n : ℕ) : natToChars n ≠ [] := by
  unfold natToChars
  split
  · simp
  · rename_i h
    cases n with
    | zero => exact absurd rfl h
    | succ m => simp [natToCharsAux]

theorem charsToNat_append_digit (l : List Char) (c : Char) :
    charsToNat (l ++ [c]) = 10 * charsToNat l + digVal c := by
  unfold charsToNat
  rw [List.foldl_append]
  rfl

theorem charsToNat_natToCharsAux (fuel : ℕ) : ∀ n : ℕ, n ≤ fuel →
    charsToNat (natToCharsAux fuel n) = n := by
  induction fuel with
  | zero =>
    intro n h
    obtain rfl : n = 0 := Nat.le_zero.mp h
    rfl
  | succ f ih =>
    intro n h
    cases n with
    | zero => rfl
    | succ m =>
      have hdiv : (m + 1) / 10 < m + 1 := Nat.div_lt_self (Nat.succ_pos m) (by norm_num)
      simp only [natToCharsAux]
      rw [charsToNat_append_digit, ih _ (by omega),
        digVal_digitChar (Nat.mod_lt _ (by norm_num))]
      have := Nat.div_add_mod (m + 1) 10
      omega

theorem charsToNat_natToChars (n : ℕ) : charsToNat (natToChars n) = n := by
  unfold natToChars
  split
  · rename_i h
    rw [h]
    rfl
  · exact charsToNat_natToCharsAux n n le_rfl

theorem charsToNat_replicate_zero (p : ℕ) (l : List Char) :
    charsToNat (List.replicate p '0' ++ l) = charsToNat l := by
  induction p with
  | zero => rfl
  | succ q ih =>
    rw [List.replicate_succ, List.cons_append]
    unfold charsToNat
    rw [List.foldl_cons]
    have h0 : (10 * 0 + digVal '0') = 0 := rfl
    rw [h0]
    exact ih

/-! ## `takeWhile`/`dropWhile` over digit blocks -/

theorem takeWhile_append_all {p : Char → Bool} (A B : List Char)
    (hA : ∀ c ∈ A, p c = true) :
    (A ++ B).takeWhile p = A ++ B.takeWhile p ∧ (A ++ B).dropWhile p = B.dropWhile p := by
  induction A with
  | nil => exact ⟨rfl, rfl⟩
  | cons c l ih =>
    obtain ⟨h1, h2⟩ := ih fun x hx => hA x (List.mem_cons_of_mem _ hx)
    have hc : p c = true := hA c (List.mem_cons_self _ _)
    constructor
    · rw [List.cons_append, List.takeWhile_cons_of_pos hc, h1, List.cons_append]
    · rw [List.cons_append, List.dropWhile_cons_of_pos hc, h2]

theorem takeWhile_eq_self {p : Char → Bool} (A : List Char) (hA : ∀ c ∈ A, p c = true) :
    A.takeWhile p = A ∧ A.dropWhile p = [] := by
  have h := takeWhile_append_all A [] hA
  simpa using h

/-! ## Reading back rendered numerals -/

theorem parseUnsigned_all_digits (ds : List Char) (hds : ∀ c ∈ ds, isDigitCh c = true)
    (hne : ds ≠ []) : parseUnsigned ds = some ((charsToNat ds : ℚ)) := by
  cases ds with
  | nil => exact absurd rfl hne
  | cons c l =>
    obtain ⟨ht, hd⟩ := takeWhile_eq_self (c :: l) hds
    unfold parseUnsigned
    simp only [ht, hd, List.isEmpty_cons]
    simp

theorem parseUnsigned_dotted (A B : List Char) (hA : ∀ c ∈ A, isDigitCh c = true)
    (hB : ∀ c ∈ B, isDigitCh c = true) (hAne : A ≠ []) :
    parseUnsigned (A ++ '.' :: B)
      = some ((charsToNat (A ++ B) : ℚ) / 10 ^ B.length) := by
  have hdot : isDigitCh '.' = false := by decide
  obtain ⟨ht1, hd1⟩ := takeWhile_append_all A ('.' :: B) hA
  obtain ⟨ht3, hd3⟩ := takeWhile_eq_self B hB
  cases A with
  | nil => exact absurd rfl hAne
  | cons a l =>
    unfold parseUnsigned
    rw [ht1, hd1, List.takeWhile_cons_of_neg (by simp [hdot]),
      List.dropWhile_cons_of_neg (by simp [hdot])]
    simp only [List.append_nil, List.isEmpty_cons, ht3, hd3, Bool.false_and, if_pos rfl]
    simp only [Bool.false_eq_true, if_false]
    rfl

theorem exists_getLast_digit {l : List Char} (hne : l ≠ [])
    (hd : ∀ c ∈ l, isDigitCh c = true) :
    ∃ d, l.getLast? = some d ∧ isDigitCh d = true := by
  rw [List.getLast?_eq_getLast_of_ne_nil hne]
  exact ⟨l.getLast hne, rfl, hd _ (List.getLast_mem hne)⟩

theorem renderDigits_parse (n k : ℕ) :
    parseUnsigned (renderDigits n k) = some ((n : ℚ) / 10 ^ k) := by
  have hlen1 : 1 ≤ (natToChars n).length := List.length_pos.mpr (natToChars_ne_nil n)
  set P := List.replicate (k + 1 - (natToChars n).length) '0' ++ natToChars n with hP
  have hbody : renderDigits n k
      = if k = 0 then P else P.take (P.length - k) ++ '.' :: P.drop (P.length - k) := rfl
  have hdig : ∀ c ∈ P, isDigitCh c = true := by
    intro c hc
    rw [hP] at hc
    rcases List.mem_append.mp hc with hc | hc
    · have hc0 : c = '0' := List.eq_of_mem_replicate hc
      subst hc0
      rfl
    · exact natToChars_digits n c hc
  have hPlen : k + 1 ≤ P.length := by
    rw [hP, List.length_append, List.length_replicate]
    omega
  have hPne : P ≠ [] := by
    intro h
    rw [h] at hPlen
    simp at hPlen
  have hval : charsToNat P = n := by
    rw [hP, charsToNat_replicate_zero, charsToNat_natToChars]
  rw [hbody]
  by_cases hk : k = 0
  · subst hk
    rw [if_pos rfl, parseUnsigned_all_digits P hdig hPne, hval]
    norm_num
  · rw [if_neg hk]
    have hAd : ∀ c ∈ P.take (P.length - k), isDigitCh c = true :=
      fun c hc => hdig c (List.take_subset _ _ hc)
    have hBd : ∀ c ∈ P.drop (P.length - k), isDigitCh c = true :=
      fun c hc => hdig c (List.drop_subset _ _ hc)
    have hAne : P.take (P.length - k) ≠ [] := by
      intro h
      have hlt := congrArg List.length h
      rw [List.length_take, min_eq_left (Nat.sub_le _ _)] at hlt
      simp at hlt
      omega
    rw [parseUnsigned_dotted _ _ hAd hBd hAne, List.take_append_drop, hval, List.length_drop]
    have hkk : P.length - (P.length - k) = k := by omega
    rw [hkk]

theorem renderDigits_chars (n k : ℕ) :
    ∀ c ∈ renderDigits n k, isDigitCh c = true ∨ c = '.' := by
  set P := List.replicate (k + 1 - (natToChars n).length) '0' ++ natToChars n with hP
  have hbody : renderDigits n k
      = if k = 0 then P else P.take (P.length - k) ++ '.' :: P.drop (P.length - k) := rfl
  have hdig : ∀ c ∈ P, isDigitCh c = true := by
    intro c hc
    rw [hP] at hc
    rcases List.mem_append.mp hc with hc | hc
    · have hc0 : c = '0' := List.eq_of_mem_replicate hc
      subst hc0
      rfl
    · exact natToChars_digits n c hc
  rw [hbody]
  by_cases hk : k = 0
  · rw [if_pos hk]
    exact fun c hc => Or.inl (hdig c hc)
  · rw [if_neg hk]
    intro c hc
    rcases List.mem_append.mp hc with hc | hc
    · exact Or.inl (hdig c (List.take_subset _ _ hc))
    · rcases List.mem_cons.mp hc with rfl | hc
      · exact Or.inr rfl
      · exact Or.inl (hdig c (List.drop_subset _ _ hc))

theorem renderDigits_head (n k : ℕ) :
    ∃ c l, renderDigits n k = c :: l ∧ isDigitCh c = true := by
  have hlen1 : 1 ≤ (natToChars n).length := List.length_pos.mpr (natToChars_ne_nil n)
  set P := List.replicate (k + 1 - (natToChars n).length) '0' ++ natToChars n with hP
  have hbody : renderDigits n k
      = if k = 0 then P else P.take (P.length - k) ++ '.' :: P.drop (P.length - k) := rfl
  have hdig : ∀ c ∈ P, isDigitCh c = true := by
    intro c hc
    rw [hP] at hc
    rcases List.mem_append.mp hc with hc | hc
    · have hc0 : c = '0' := List.eq_of_mem_replicate hc
      subst hc0
      rfl
    · exact natToChars_digits n c hc
  have hPlen : k + 1 ≤ P.length := by
    rw [hP, List.length_append, List.length_replicate]
    omega
  rw [hbody]
  by_cases hk : k = 0
  · rw [if_pos hk]
    cases hPc : P with
    | nil =>
      rw [hPc] at hPlen
      simp at hPlen
    | cons c l => exact ⟨c, l, rfl, hdig c (by rw [hPc]; simp)⟩
  · rw [if_neg hk]
    cases hAc : P.take (P.length - k) with
    | nil =>
      have hlt := congrArg List.length hAc
      rw [List.length_take, min_eq_left (Nat.sub_le _ _)] at hlt
      simp at hlt
      omega
    | cons c l =>
      refine ⟨c, l ++ '.' :: P.drop (P.length - k), by simp, ?_⟩
      exact hdig c (List.take_subset _ _ (by rw [hAc]; simp))

theorem renderDigits_last (n k : ℕ) :
    ∃ d, (renderDigits n k).getLast? = some d ∧ isDigitCh d = true := by
  have hlen1 : 1 ≤ (natToChars n).length := List.length_pos.mpr (natToChars_ne_nil n)
  set P := List.replicate (k + 1 - (natToChars n).length) '0' ++ natToChars n with hP
  have hbody : renderDigits n k
      = if k = 0 then P else P.take (P.length - k) ++ '.' :: P.drop (P.length - k) := rfl
  have hdig : ∀ c ∈ P, isDigitCh c = true := by
    intro c hc
    rw [hP] at hc
    rcases List.mem_append.mp hc with hc | hc
    · have hc0 : c = '0' := List.eq_of_mem_replicate hc
      subst hc0
      rfl
    · exact natToChars_digits n c hc
  have hPlen : k + 1 ≤ P.length := by
    rw [hP, List.length_append, List.length_replicate]
    omega
  have hPne : P ≠ [] := by
    intro h
    rw [h] at hPlen
    simp at hPlen
  rw [hbody]
  by_cases hk : k = 0
  · rw [if_pos hk]
    exact exists_getLast_digit hPne hdig
  · rw [if_neg hk]
    have hBne : P.drop (P.length - k) ≠ [] := by
      intro h
      have hlt := congrArg List.length h
      rw [List.length_drop] at hlt
      simp at hlt
      omega
    have hBd : ∀ c ∈ P.drop (P.length - k), isDigitCh c = true :=
      fun c hc => hdig c (List.drop_subset _ _ hc)
    obtain ⟨d, hd1, hd2⟩ := exists_getLast_digit hBne hBd
    refine ⟨d, ?_, hd2⟩
    rw [List.getLast?_append_of_ne_nil _ (by simp : ('.' :: P.drop (P.length - k)) ≠ [])]
    rw [show ('.' :: P.drop (P.length - k)) = ['.'] ++ P.drop (P.length - k) from rfl]
    rw [List.getLast?_append_of_ne_nil _ hBne]
    exact hd1

/-! ## The rendered value reads back to the value -/

theorem cast_mul_div_eq (q : ℚ) (k : ℕ) (hk : 10 ^ k % q.den = 0) :
    ((q.num * (((10 ^ k : ℕ) / q.den : ℕ) : ℤ) : ℤ) : ℚ) / (10 : ℚ) ^ k = q := by
  have hden0 : q.den ≠ 0 := q.den_nz
  have hdvd : q.den ∣ 10 ^ k := Nat.dvd_of_mod_eq_zero hk
  obtain ⟨c, hc⟩ := hdvd
  have hc0 : c ≠ 0 := by
    intro h
    rw [h, Nat.mul_zero] at hc
    exact absurd hc (by positivity)
  have hcdiv : (10 ^ k : ℕ) / q.den = c := by
    rw [hc]
    exact Nat.mul_div_cancel_left c (Nat.pos_of_ne_zero hden0)
  rw [hcdiv]
  have h10 : ((10 : ℚ)) ^ k = (q.den : ℚ) * (c : ℚ) := by
    have h := congrArg (fun m : ℕ => (m : ℚ)) hc
    push_cast at h
    exact h
  have hden0' : (q.den : ℚ) ≠ 0 := Nat.cast_ne_zero.mpr hden0
  have hc0' : (c : ℚ) ≠ 0 := Nat.cast_ne_zero.mpr hc0
  rw [h10, div_eq_iff (mul_ne_zero hden0' hc0')]
  push_cast
  rw [← mul_assoc]
  congr 1
  have hqd : q * (q.den : ℚ) = ((q.num : ℚ) / (q.den : ℚ)) * (q.den : ℚ) := by
    rw [Rat.num_div_den]
  rw [hqd, div_mul_cancel₀ _ hden0']

theorem parseCore_renderAt {q : ℚ} {k : ℕ} (hk : 10 ^ k % q.den = 0) :
    parseCore (renderAt q k) = some q := by
  set m : ℤ := q.num * (((10 ^ k : ℕ) / q.den : ℕ) : ℤ) with hm
  have hbody : renderAt q k
      = if m < 0 then '-' :: renderDigits m.natAbs k else renderDigits m.toNat k := rfl
  rw [hbody]
  by_cases hneg : m < 0
  · rw [if_pos hneg]
    have hstep : parseCore ('-' :: renderDigits m.natAbs k)
        = (parseUnsigned (renderDigits m.natAbs k)).map fun x => -x := by
      unfold parseCore
      simp
    rw [hstep, renderDigits_parse]
    simp only [Option.map_some']
    congr 1
    have habs : ((m.natAbs : ℚ)) = -(m : ℚ) := by
      have h : (m.natAbs : ℤ) = -m := Int.ofNat_natAbs_of_nonpos (le_of_lt hneg)
      have h' : ((m.natAbs : ℤ) : ℚ) = ((-m : ℤ) : ℚ) := by rw [h]
      rw [Int.cast_natCast, Int.cast_neg] at h'
      exact h'
    rw [habs, neg_div, neg_neg, hm]
    exact cast_mul_div_eq q k hk
  · rw [if_neg hneg]
    obtain ⟨c0, l0, hcons, hdig0⟩ := renderDigits_head m.toNat k
    have hcore : parseCore (renderDigits m.toNat k)
        = parseUnsigned (renderDigits m.toNat k) := by
      rw [hcons]
      unfold parseCore
      have h1 : c0 ≠ '-' := digit_ne_of hdig0 (by decide)
      have h2 : c0 ≠ '+' := digit_ne_of hdig0 (by decide)
      simp [h1, h2]
    rw [hcore, renderDigits_parse]
    congr 1
    have htoNat : ((m.toNat : ℚ)) = (m : ℚ) := by
      exact_mod_cast congrArg (fun z : ℤ => (z : ℚ)) (Int.toNat_of_nonneg (not_lt.mp hneg))
    rw [htoNat, hm]
    exact cast_mul_div_eq q k hk

theorem renderAt_clean (q : ℚ) (k : ℕ) :
    ∃ c0 l0, renderAt q k = c0 :: l0 ∧ isWS c0 = false ∧
      ∃ d0, (renderAt q k).getLast? = some d0 ∧ isWS d0 = false := by
  set m : ℤ := q.num * (((10 ^ k : ℕ) / q.den : ℕ) : ℤ) with hm
  have hbody : renderAt q k
      = if m < 0 then '-' :: renderDigits m.natAbs k else renderDigits m.toNat k := rfl
  rw [hbody]
  by_cases hneg : m < 0
  · rw [if_pos hneg]
    obtain ⟨c0, l0, hcons, hdig0⟩ := renderDigits_head m.natAbs k
    obtain ⟨d0, hd1, hd2⟩ := renderDigits_last m.natAbs k
    refine ⟨'-', renderDigits m.natAbs k, rfl, by decide, d0, ?_, digit_not_ws hd2⟩
    rw [show ('-' :: renderDigits m.natAbs k) = ['-'] ++ renderDigits m.natAbs k from rfl]
    rw [List.getLast?_append_of_ne_nil _ (by rw [hcons]; simp)]
    exact hd1
  · rw [if_neg hneg]
    obtain ⟨c0, l0, hcons, hdig0⟩ := renderDigits_head m.toNat k
    obtain ⟨d0, hd1, hd2⟩ := renderDigits_last m.toNat k
    exact ⟨c0, l0, hcons, digit_not_ws hdig0, d0, hd1, digit_not_ws hd2⟩

theorem renderAt_no_sep (q : ℚ) (k : ℕ) :
    ∀ c ∈ renderAt q k, c ≠ ',' ∧ c ≠ '\n' := by
  set m : ℤ := q.num * (((10 ^ k : ℕ) / q.den : ℕ) : ℤ) with hm
  have hbody : renderAt q k
      = if m < 0 then '-' :: renderDigits m.natAbs k else renderDigits m.toNat k := rfl
  rw [hbody]
  have hdc : ∀ n', ∀ c ∈ renderDigits n' k, c ≠ ',' ∧ c ≠ '\n' := by
    intro n' c hc
    rcases renderDigits_chars n' k c hc with hd | rfl
    · exact ⟨digit_ne_of hd (by decide), digit_ne_of hd (by decide)⟩
    · exact ⟨by decide, by decide⟩
  by_cases hneg : m < 0
  · rw [if_pos hneg]
    intro c hc
    rcases List.mem_cons.mp hc with rfl | hc
    · exact ⟨by decide, by decide⟩
    · exact hdc _ c hc
  · rw [if_neg hneg]
    exact hdc _

/-! ## Whitespace stripping -/

theorem dropWhile_eq_self_of_head {p : Char → Bool} {X : List Char} {h0 : Char}
    (hh : X.head? = some h0) (hp : p h0 = false) : X.dropWhile p = X := by
  cases X with
  | nil => cases hh
  | cons c t =>
    obtain rfl : c = h0 := by simpa using hh
    exact List.dropWhile_cons_of_neg (by simp [hp])

theorem stripWS_clean (w : List Char) (c0 : Char) (l0 : List Char) (hw : w = c0 :: l0)
    (hh : isWS c0 = false) (d0 : Char) (hl : w.getLast? = some d0) (hd : isWS d0 = false) :
    stripWS (' ' :: w) = w ∧ stripWS ((' ' :: w) ++ ['\n']) = w := by
  have hrev : w.reverse.dropWhile isWS = w.reverse := by
    refine dropWhile_eq_self_of_head ?_ hd
    rw [List.head?_reverse]
    exact hl
  have hwdrop : w.dropWhile isWS = w := by
    refine dropWhile_eq_self_of_head ?_ hh
    rw [hw]
    rfl
  constructor
  · unfold stripWS
    rw [List.dropWhile_cons_of_pos (by decide), hwdrop, hrev, List.reverse_reverse]
  · unfold stripWS
    rw [List.cons_append, List.dropWhile_cons_of_pos (by decide)]
    have hwn : (w ++ ['\n']).dropWhile isWS = w ++ ['\n'] := by
      refine dropWhile_eq_self_of_head ?_ hh
      rw [hw, List.cons_append]
      rfl
    rw [hwn, List.reverse_append]
    have : (['\n'] : List Char).reverse ++ w.reverse = '\n' :: w.reverse := rfl
    rw [this, List.dropWhile_cons_of_pos (by decide), hrev, List.reverse_reverse]

theorem parseFloat_renderAt {q : ℚ} {k : ℕ} (hk : 10 ^ k % q.den = 0) :
    parseFloat (' ' :: renderAt q k) = some q ∧
    parseFloat ((' ' :: renderAt q k) ++ ['\n']) = some q := by
  obtain ⟨c0, l0, hcons, hh, d0, hld, hd⟩ := renderAt_clean q k
  obtain ⟨h1, h2⟩ := stripWS_clean (renderAt q k) c0 l0 hcons hh d0 hld hd
  unfold parseFloat
  rw [h1, h2, parseCore_renderAt hk]
  exact ⟨rfl, rfl⟩

theorem renderQ_spec {q : ℚ} (hq : (decExp q).isSome = true) :
    parseFloat (' ' :: renderQ q) = some q ∧
    parseFloat ((' ' :: renderQ q) ++ ['\n']) = some q ∧
    ∀ c ∈ renderQ q, c ≠ ',' ∧ c ≠ '\n' := by
  obtain ⟨k, hk⟩ := Option.isSome_iff_exists.mp hq
  have hkeq : 10 ^ k % q.den = 0 := by
    have h := List.find?_some hk
    exact of_decide_eq_true h
  unfold renderQ
  simp only [hk]
  exact ⟨(parseFloat_renderAt hkeq).1, (parseFloat_renderAt hkeq).2, renderAt_no_sep q k⟩

/-! ## Splitting written rows on commas -/

theorem splitOn_no_sep (c : Char) (l : List Char) (h : ∀ x ∈ l, x ≠ c) :
    splitOn c l = [l] := by
  induction l with
  | nil => rfl
  | cons x xs ih =>
    unfold splitOn
    rw [if_neg (h x (List.mem_cons_self _ _))]
    rw [ih fun y hy => h y (List.mem_cons_of_mem _ hy)]

theorem splitOn_append (c : Char) (A B : List Char) (hA : ∀ x ∈ A, x ≠ c) :
    splitOn c (A ++ c :: B) = A :: splitOn c B := by
  induction A with
  | nil =>
    show splitOn c (c :: B) = [] :: splitOn c B
    conv_lhs => rw [splitOn]
    rw [if_pos rfl]
  | cons x xs ih =>
    show splitOn c (x :: (xs ++ c :: B)) = (x :: xs) :: splitOn c B
    conv_lhs => rw [splitOn]
    rw [if_neg (hA x (List.mem_cons_self _ _))]
    rw [ih fun y hy => hA y (List.mem_cons_of_mem _ hy)]

theorem splitOn_line (k X Y : List Char)
    (hk : ∀ x ∈ k, x ≠ ',') (hX : ∀ x ∈ X, x ≠ ',') (hY : ∀ x ∈ Y, x ≠ ',') :
    splitOn ',' (k ++ (", ").toList ++ X ++ (", ").toList ++ Y ++ ['\n'])
      = [k, ' ' :: X, ' ' :: (Y ++ ['\n'])] := by
  have hassoc : k ++ (", ").toList ++ X ++ (", ").toList ++ Y ++ ['\n']
      = k ++ ',' :: ((' ' :: X) ++ ',' :: (' ' :: (Y ++ ['\n']))) := by
    have h1 : ((", ").toList : List Char) = [',', ' '] := rfl
    rw [h1]
    simp
  have hsp1 : ∀ x ∈ (' ' :: X), x ≠ ',' := by
    intro x hx
    rcases List.mem_cons.mp hx with rfl | hx
    · decide
    · exact hX x hx
  have hsp2 : ∀ x ∈ (' ' :: (Y ++ ['\n'])), x ≠ ',' := by
    intro x hx
    rcases List.mem_cons.mp hx with rfl | hx
    · decide
    · rcases List.mem_append.mp hx with hx | hx
      · exact hY x hx
      · obtain rfl := List.mem_singleton.mp hx
        decide
  rw [hassoc, splitOn_append _ _ _ hk, splitOn_append _ _ _ hsp1, splitOn_no_sep _ _ hsp2]

/-! ## Claim C5 -/

theorem insertLoc_append_fresh (d : List (Str × (JVal × JVal))) (k : Str) (v : JVal × JVal)
    (h : ∀ p ∈ d, p.1 ≠ k) : insertLoc d k v = d ++ [(k, v)] := by
  induction d with
  | nil => rfl
  | cons p r ih =>
    obtain ⟨k', v'⟩ := p
    unfold insertLoc
    rw [if_neg (h (k', v') (List.mem_cons_self _ _))]
    rw [ih fun p hp => h p (List.mem_cons_of_mem _ hp), List.cons_append]

theorem renderable_elim {v : JVal × JVal} (h : renderable v = true) :
    ∃ qa qb, v = (JVal.num qa, JVal.num qb) ∧
      (decExp qa).isSome = true ∧ (decExp qb).isSome = true := by
  obtain ⟨va, vb⟩ := v
  cases va with
  | num qa =>
    cases vb with
    | num qb =>
      unfold renderable at h
      rw [Bool.and_eq_true] at h
      exact ⟨qa, qb, rfl, h.1, h.2⟩
    | str s => simp [renderable] at h
    | null => simp [renderable] at h
  | str s => simp [renderable] at h
  | null => simp [renderable] at h

theorem goodKey_elim {k : Str} (h : goodKey k = true) : ∀ x ∈ k, x ≠ ',' ∧ x ≠ '\n' := by
  intro x hx
  unfold goodKey at h
  rw [List.all_eq_true] at h
  have hx' := h x hx
  simpa using hx'

/-- The rows written for a cache with fresh, duplicate-free keys and
renderable numeric values read back to exactly those entries. -/
theorem readLines_lineOf (l : List (Str × (JVal × JVal))) :
    ∀ d : List (Str × (JVal × JVal)),
      (∀ p ∈ l, goodKey p.1 = true ∧ renderable p.2 = true) →
      (∀ p ∈ l, ∀ p' ∈ d, p.1 ≠ p'.1) →
      (l.map Prod.fst).Nodup →
      readLines d (l.map lineOf) = d ++ l := by
  induction l with
  | nil =>
    intro d _ _ _
    simp [readLines]
  | cons p rest ih =>
    intro d hgood hfresh hnodup
    obtain ⟨kp, vp⟩ := p
    obtain ⟨hk, hr⟩ := hgood (kp, vp) (List.mem_cons_self _ _)
    obtain ⟨qa, qb, hv, ha, hb⟩ := renderable_elim hr
    subst hv
    obtain ⟨hpa1, _, hcomma_a⟩ := renderQ_spec ha
    obtain ⟨_, hpb2, hcomma_b⟩ := renderQ_spec hb
    have hsplit : splitOn ',' (lineOf (kp, (JVal.num qa, JVal.num qb)))
        = [kp, ' ' :: renderQ qa, ' ' :: (renderQ qb ++ ['\n'])] := by
      have hlo : lineOf (kp, (JVal.num qa, JVal.num qb))
          = kp ++ (", ").toList ++ renderQ qa ++ (", ").toList ++ renderQ qb ++ ['\n'] := rfl
      rw [hlo]
      exact splitOn_line kp (renderQ qa) (renderQ qb)
        (fun x hx => (goodKey_elim hk x hx).1)
        (fun x hx => (hcomma_a x hx).1)
        (fun x hx => (hcomma_b x hx).1)
    rw [List.map_cons]
    rw [readLines_cons_eq d (rest.map lineOf) hsplit hpa1 hpb2]
    have hins : insertLoc d kp (JVal.num qa, JVal.num qb) = d ++ [(kp, (JVal.num qa, JVal.num qb))] :=
      insertLoc_append_fresh d kp _ fun p' hp' =>
        Ne.symm (hfresh (kp, (JVal.num qa, JVal.num qb)) (List.mem_cons_self _ _) p' hp')
    rw [hins]
    have hkp_not : kp ∉ rest.map Prod.fst := (List.nodup_cons.mp hnodup).1
    rw [ih (d ++ [(kp, (JVal.num qa, JVal.num qb))])
      (fun p hp => hgood p (List.mem_cons_of_mem _ hp))
      (by
        intro p hp p' hp'
        rcases List.mem_append.mp hp' with hp' | hp'
        · exact hfresh p (List.mem_cons_of_mem _ hp) p' hp'
        · obtain rfl := List.mem_singleton.mp hp'
          intro he
          apply hkp_not
          have he' : p.1 = kp := he
          exact he' ▸ List.mem_map_of_mem Prod.fst hp)
      (List.nodup_cons.mp hnodup).2]
    simp

/-- C5 counterexample: a reachable resolver state whose cached value is
the non-numeric pair `("xx", "yy")` (stored by `get_lat_lon` from a
string-valued provider response) does not survive the round trip:
writing then loading into a fresh resolver yields a different (empty)
`locations` mapping, because `float()` raises on the written row. -/
theorem roundtrip_fails_nonnumeric :
    (read_from_file initState (some (write_to_file stateC5))).ip_locations
      ≠ stateC5.ip_locations := by
  decide

/-- C5 (amended): the write-then-load round trip reproduces the
`locations` mapping — and leaves the fresh resolver's blacklist empty —
for every resolver state whose addresses are duplicate-free and survive
the comma-delimited format and whose cached values are numeric with an
exact decimal rendering (every Python float value is).  States holding a
non-numeric cached value (reachable, since `Resolve` stores non-numeric
provider values) break the round trip. -/
theorem roundtrip_numeric (s : TraceState)
    (hnodup : (s.ip_locations.map Prod.fst).Nodup)
    (hgood : ∀ p ∈ s.ip_locations, goodKey p.1 = true ∧ renderable p.2 = true) :
    (read_from_file initState (some (write_to_file s))).ip_locations = s.ip_locations ∧
    (read_from_file initState (some (write_to_file s))).blacklisted_ips = [] := by
  constructor
  · show readLines [] (s.ip_locations.map lineOf) = s.ip_locations
    have h := readLines_lineOf s.ip_locations [] hgood (by intro p _ p' hp'; cases hp') hnodup
    simpa using h
  · rfl

theorem roundtrip_numeric_witness :
    (stateW5.ip_locations.map Prod.fst).Nodup ∧
    (∀ p ∈ stateW5.ip_locations, goodKey p.1 = true ∧ renderable p.2 = true) ∧
    ((read_from_file initState (some (write_to_file stateW5))).ip_locations
        = stateW5.ip_locations ∧
      (read_from_file initState (some (write_to_file stateW5))).blacklisted_ips = []) :=
  ⟨by decide, by decide, roundtrip_numeric stateW5 (by decide) (by decide)⟩

end TraceRoute
